import Mathlib

/-
Verification development for the membership-polling event engine in
src/index.ts (class PatreonEvents).  The mutable instance state of the class
is embedded as the structure PatreonState, JS Maps/Sets as insertion-ordered
association lists, and the reconciliation method checkForUpdates as a pure
function from (state, fetched batch) to (emitted events, updated state).
JS truthiness on strings (empty string is falsy) is modelled explicitly by
the function truthy.
-/

namespace PatreonConnect

/-! ### Association-list model of JS Map and Set -/

/-- Lookup in an insertion-ordered association list (JS Map.get; undefined
becomes none). -/
def getA {α β : Type} [DecidableEq α] : List (α × β) → α → Option β
  | [], _ => none
  | p :: t, k => if p.1 = k then some p.2 else getA t k

/-- Update in an insertion-ordered association list (JS Map.set: an existing
key keeps its position, a new key is appended at the end). -/
def setA {α β : Type} [DecidableEq α] : List (α × β) → α → β → List (α × β)
  | [], k, v => [(k, v)]
  | p :: t, k, v => if p.1 = k then (k, v) :: t else p :: setA t k v

/-- Deletion from an association list (JS Map.delete removes the single entry
with the given key; on a genuine map that is the first occurrence). -/
def delA {α β : Type} [DecidableEq α] : List (α × β) → α → List (α × β)
  | [], _ => []
  | p :: t, k => if p.1 = k then t else p :: delA t k

/-- Removal of an element from an insertion-ordered set (JS Set.delete). -/
def remS {α : Type} [DecidableEq α] : List α → α → List α
  | [], _ => []
  | x :: t, y => if x = y then t else x :: remS t y

/-- Insertion into an insertion-ordered set (JS Set.add appends a new element
at the end and leaves the set unchanged when the element is present). -/
def addS {α : Type} [DecidableEq α] (l : List α) (x : α) : List α :=
  if x ∈ l then l else l ++ [x]

/-! ### Data model -/

/-- Membership record as produced by fetchMemberships.  Only the fields the
diff engine reads are kept: id (none models a raw record whose id field is
missing, i.e. the JS value undefined), the status string and the nullable
Discord id.  The remaining fields of MembershipData in src/index.ts are
descriptive payload that the engine never inspects. -/
structure MembershipData where
  id : Option String
  status : String
  discordId : Option String
deriving DecidableEq, Repr

/-- Domain events emitted by checkForUpdates, one constructor per member
event of PatreonEventMap (error and ready are channel signals, not produced
by the diff logic). -/
inductive PEvent where
  | subscribed (m : MembershipData)
  | canceled (m : MembershipData)
  | declined (m : MembershipData)
  | reactivated (m : MembershipData)
  | expired (m : MembershipData)
  | connected (m : MembershipData)
  | disconnected (m : MembershipData)
deriving DecidableEq, Repr

/-- Mutable per-instance state of the PatreonEvents class that the
reconciliation reads and writes: the two last-observed maps, the six dedup
trackers and the first-run flag. -/
structure PatreonState where
  lastMemberships : List (Option String × String)
  lastDiscordIds : List (Option String × Option String)
  subscribedMembers : List (Option String)
  canceledMembers : List (Option String × Nat)
  declinedMembers : List (Option String × Nat)
  reactivatedMembers : List (Option String × Nat)
  connectedDiscords : List (Option String × String)
  disconnectedDiscords : List (Option String × String)
  isFirstRun : Bool
deriving DecidableEq, Repr

/-- State of a freshly constructed PatreonEvents instance with no cache file:
all maps empty and isFirstRun true. -/
def initialState : PatreonState :=
  { lastMemberships := [], lastDiscordIds := [], subscribedMembers := [],
    canceledMembers := [], declinedMembers := [], reactivatedMembers := [],
    connectedDiscords := [], disconnectedDiscords := [], isFirstRun := true }

/-- JS truthiness of a string-or-null-or-undefined value: undefined, null and
the empty string are falsy, every other string is truthy. -/
def truthy : Option String → Bool
  | none => false
  | some s => if s = "" then false else true

/-! ### Event dedup tracker -/

/-- Transcription of PatreonEvents.hasProcessedEvent: subscribed is deduped
by set membership, connected and disconnected by map entry with strictly
equal Discord id; every other event kind is never suppressed. -/
def hasProcessedEvent (s : PatreonState) (event : String) (m : MembershipData) : Bool :=
  match event with
  | "subscribed" => if m.id ∈ s.subscribedMembers then true else false
  | "connected" =>
      match getA s.connectedDiscords m.id with
      | some d => if m.discordId = some d then true else false
      | none => false
  | "disconnected" =>
      match getA s.disconnectedDiscords m.id with
      | some d => if m.discordId = some d then true else false
      | none => false
  | _ => false

/-- Transcription of the tracking switch in PatreonEvents.emitAndTrack; the
emission itself is modelled by the caller appending the event to its output
list.  The connected and disconnected cases track only when the carried
Discord id is truthy, exactly as the JS guard if member.discordId does. -/
def emitAndTrack (now : Nat) (s : PatreonState) (e : PEvent) : PatreonState :=
  match e with
  | PEvent.subscribed m =>
      { s with subscribedMembers := addS s.subscribedMembers m.id,
               canceledMembers := delA s.canceledMembers m.id,
               declinedMembers := delA s.declinedMembers m.id }
  | PEvent.reactivated m =>
      { s with reactivatedMembers := setA s.reactivatedMembers m.id now,
               canceledMembers := delA s.canceledMembers m.id,
               declinedMembers := delA s.declinedMembers m.id }
  | PEvent.canceled m =>
      { s with canceledMembers := setA s.canceledMembers m.id now,
               subscribedMembers := remS s.subscribedMembers m.id,
               reactivatedMembers := delA s.reactivatedMembers m.id }
  | PEvent.declined m =>
      { s with declinedMembers := setA s.declinedMembers m.id now,
               subscribedMembers := remS s.subscribedMembers m.id,
               reactivatedMembers := delA s.reactivatedMembers m.id }
  | PEvent.connected m =>
      match m.discordId with
      | some d =>
          if d = "" then s
          else { s with connectedDiscords := setA s.connectedDiscords m.id d,
                        disconnectedDiscords := delA s.disconnectedDiscords m.id }
      | none => s
  | PEvent.disconnected m =>
      match m.discordId with
      | some d =>
          if d = "" then s
          else { s with disconnectedDiscords := setA s.disconnectedDiscords m.id d,
                        connectedDiscords := delA s.connectedDiscords m.id }
      | none => s
  | PEvent.expired m =>
      { s with subscribedMembers := remS s.subscribedMembers m.id }

/-- Emission step: append the event to the output and run its tracking. -/
def emitStep (now : Nat) (a : List PEvent × PatreonState) (e : PEvent) :
    List PEvent × PatreonState :=
  (a.1 ++ [e], emitAndTrack now a.2 e)

/-! ### Diff engine: the body of checkForUpdates -/

/-- New-member branch of checkForUpdates (the case where previousStatus is
falsy): emit subscribed unless this is the first run or the subscription was
already processed. -/
def lifecycleNew (now : Nat) (s : PatreonState) (m : MembershipData) :
    List PEvent × PatreonState :=
  if s.isFirstRun = false ∧ hasProcessedEvent s "subscribed" m = false then
    emitStep now ([], s) (PEvent.subscribed m)
  else ([], s)

/-- Status-changed branch of checkForUpdates: four independent guards run in
sequence (not an if/else chain), each possibly emitting. -/
def statusChanged (now : Nat) (s : PatreonState) (m : MembershipData)
    (previousStatus : String) : List PEvent × PatreonState :=
  let a0 : List PEvent × PatreonState := ([], s)
  let a1 := if m.status = "former_patron" then emitStep now a0 (PEvent.canceled m) else a0
  let a2 := if m.status = "declined_patron" then emitStep now a1 (PEvent.declined m) else a1
  let a3 := if m.status = "active_patron" ∧
               (previousStatus = "former_patron" ∨ previousStatus = "declined_patron") then
              emitStep now a2 (PEvent.reactivated m)
            else a2
  if m.status = "none" then emitStep now a3 (PEvent.expired m) else a3

/-- Membership-status part of the per-member body of checkForUpdates.  The
guard if (!previousStatus) is JS-falsy, so an empty-string previous status
also takes the new-member branch. -/
def lifecycleStep (now : Nat) (s : PatreonState) (m : MembershipData)
    (previousStatus : Option String) : List PEvent × PatreonState :=
  match previousStatus with
  | none => lifecycleNew now s m
  | some prev =>
      if prev = "" then lifecycleNew now s m
      else if prev = m.status then ([], s)
      else statusChanged now s m prev

/-- No-previous-Discord branch of the linkage logic (previousDiscordId is
undefined or null): emit connected for a truthy current id unless already
recorded. -/
def linkageNoPrev (now : Nat) (s : PatreonState) (m : MembershipData) :
    List PEvent × PatreonState :=
  if truthy m.discordId = true ∧ hasProcessedEvent s "connected" m = false then
    emitStep now ([], s) (PEvent.connected m)
  else ([], s)

/-- Had-previous-Discord branch of the linkage logic: a falsy current id
yields a disconnect carrying the previous id; a different truthy id yields
disconnect (previous id) then connect (current id), each dedup-checked
against the state current at that point. -/
def linkageWithPrev (now : Nat) (s : PatreonState) (m : MembershipData)
    (prevD : String) : List PEvent × PatreonState :=
  let dm : MembershipData := { m with discordId := some prevD }
  match m.discordId with
  | none =>
      if hasProcessedEvent s "disconnected" dm = false then
        emitStep now ([], s) (PEvent.disconnected dm)
      else ([], s)
  | some d =>
      if d = "" then
        if hasProcessedEvent s "disconnected" dm = false then
          emitStep now ([], s) (PEvent.disconnected dm)
        else ([], s)
      else if prevD = d then ([], s)
      else
        let a1 := if hasProcessedEvent s "disconnected" dm = false then
                    emitStep now ([], s) (PEvent.disconnected dm)
                  else ([], s)
        if hasProcessedEvent a1.2 "connected" m = false then
          emitStep now a1 (PEvent.connected m)
        else a1

/-- Discord-connection part of the per-member body of checkForUpdates.  The
branch test previousDiscordId === undefined || previousDiscordId === null is
strict equality, so an empty-string previous id takes the had-previous
branch. -/
def linkageStep (now : Nat) (s : PatreonState) (m : MembershipData)
    (previousDiscordId : Option (Option String)) : List PEvent × PatreonState :=
  match previousDiscordId with
  | none => linkageNoPrev now s m
  | some none => linkageNoPrev now s m
  | some (some prevD) => linkageWithPrev now s m prevD

/-- Body of the memberships.forEach callback in checkForUpdates:
previousStatus and previousDiscordId are read once up front, the lifecycle
branch runs before the linkage branch, and finally lastMemberships and
lastDiscordIds are updated to the observed values. -/
def processMember (now : Nat) (s : PatreonState) (m : MembershipData) :
    List PEvent × PatreonState :=
  let previousStatus := getA s.lastMemberships m.id
  let previousDiscordId := getA s.lastDiscordIds m.id
  let a := lifecycleStep now s m previousStatus
  let b := linkageStep now a.2 m previousDiscordId
  (a.1 ++ b.1,
   { b.2 with lastMemberships := setA b.2.lastMemberships m.id m.status,
              lastDiscordIds := setA b.2.lastDiscordIds m.id m.discordId })

/-- Accumulating fold step over the fetched batch. -/
def stepMember (now : Nat) (a : List PEvent × PatreonState) (m : MembershipData) :
    List PEvent × PatreonState :=
  let b := processMember now a.2 m
  (a.1 ++ b.1, b.2)

/-- The memberships.forEach loop of checkForUpdates. -/
def processBatch (now : Nat) (s : PatreonState) (batch : List MembershipData) :
    List PEvent × PatreonState :=
  batch.foldl (stepMember now) ([], s)

/-- One iteration of the removed-member loop of checkForUpdates: a key absent
from the current batch gets a dedup-checked disconnected event when its last
known Discord id is truthy, and is then deleted from both maps.  The fallback
lastMemberships.get(id) || 'none' is JS-falsy, so an empty-string status also
falls back to none. -/
def removedStep (now : Nat) (currentMembers : List (Option String))
    (a : List PEvent × PatreonState) (id : Option String) :
    List PEvent × PatreonState :=
  if id ∈ currentMembers then a
  else
    let s := a.2
    let lastKnownStatus :=
      match getA s.lastMemberships id with
      | some st => if st = "" then "none" else st
      | none => "none"
    let a1 :=
      match getA s.lastDiscordIds id with
      | some (some d) =>
          if d = "" then a
          else
            let dm : MembershipData := { id := id, status := lastKnownStatus, discordId := some d }
            if hasProcessedEvent s "disconnected" dm = false then
              emitStep now a (PEvent.disconnected dm)
            else a
      | some none => a
      | none => a
    (a1.1, { a1.2 with lastMemberships := delA a1.2.lastMemberships id,
                       lastDiscordIds := delA a1.2.lastDiscordIds id })

/-- The removed-member for-loop of checkForUpdates, iterating over a snapshot
of the keys of lastMemberships (each visited key is the only one deleted, so
live iteration over the JS Map equals iteration over the snapshot). -/
def processRemoved (now : Nat) (currentMembers : List (Option String))
    (s : PatreonState) (ks : List (Option String)) : List PEvent × PatreonState :=
  ks.foldl (removedStep now currentMembers) ([], s)

/-- Pure core of PatreonEvents.checkForUpdates: given the fetched batch,
process every record in order, then sweep removed members, then clear the
first-run flag.  The emitted events are returned in emission order. -/
def checkForUpdates (now : Nat) (s : PatreonState) (memberships : List MembershipData) :
    List PEvent × PatreonState :=
  let currentMembers := memberships.map (fun m => m.id)
  let a := processBatch now s memberships
  let b := processRemoved now currentMembers a.2 (a.2.lastMemberships.map (fun p => p.1))
  (a.1 ++ b.1, { b.2 with isFirstRun := false })

/-- Value returned by fetchMemberships when the HTTP request throws: the
catch branch at the end of fetchMemberships reports the error on the error
channel and returns the empty list. -/
def fetchMembershipsOnError : List MembershipData := []

/-- One tick in which the Membership Source fetch fails: checkForUpdates
awaits fetchMemberships, receives the empty list from its catch branch, and
runs the reconciliation on it. -/
def tickOnFetchError (now : Nat) (s : PatreonState) : List PEvent × PatreonState :=
  checkForUpdates now s fetchMembershipsOnError

/-! ### Event observers -/

/-- Entity id carried by an event. -/
def eventId : PEvent → Option String
  | PEvent.subscribed m => m.id
  | PEvent.canceled m => m.id
  | PEvent.declined m => m.id
  | PEvent.reactivated m => m.id
  | PEvent.expired m => m.id
  | PEvent.connected m => m.id
  | PEvent.disconnected m => m.id

/-- Whether an event is a membership-lifecycle event (as opposed to a
Discord-linkage event). -/
def isLifecycleEvent : PEvent → Bool
  | PEvent.connected _ => false
  | PEvent.disconnected _ => false
  | _ => true

/-- Whether an event is a Discord-linkage event. -/
def isLinkageEvent : PEvent → Bool
  | PEvent.connected _ => true
  | PEvent.disconnected _ => true
  | _ => false

/-- Whether an event is a subscribed event. -/
def isSubscribedEvent : PEvent → Bool
  | PEvent.subscribed _ => true
  | _ => false

/-- Whether an event is a disconnected event. -/
def isDisconnectedEvent : PEvent → Bool
  | PEvent.disconnected _ => true
  | _ => false

/-- Whether an event is a disconnected event for the given entity id. -/
def isDisconnectedFor (i : Option String) : PEvent → Bool
  | PEvent.disconnected m => if m.id = i then true else false
  | _ => false

/-- Whether an event is a subscribed event for the given entity id. -/
def isSubscribedFor (i : Option String) : PEvent → Bool
  | PEvent.subscribed m => if m.id = i then true else false
  | _ => false

/-! ### Well-formedness -/

/-- Well-formedness of a persisted state: every JS Map has pairwise distinct
keys and the JS Set has pairwise distinct elements, which every genuine Map
and Set guarantees by construction. -/
def WFState (s : PatreonState) : Prop :=
  (s.lastMemberships.map Prod.fst).Nodup ∧
  (s.lastDiscordIds.map Prod.fst).Nodup ∧
  s.subscribedMembers.Nodup ∧
  (s.canceledMembers.map Prod.fst).Nodup ∧
  (s.declinedMembers.map Prod.fst).Nodup ∧
  (s.reactivatedMembers.map Prod.fst).Nodup ∧
  (s.connectedDiscords.map Prod.fst).Nodup ∧
  (s.disconnectedDiscords.map Prod.fst).Nodup

instance (s : PatreonState) : Decidable (WFState s) := by
  unfold WFState; infer_instance


/-! ### Lemmas about the association-list operations -/

section AssocLemmas

variable {α β : Type} [DecidableEq α]

theorem getA_setA_self (l : List (α × β)) (k : α) (v : β) :
    getA (setA l k v) k = some v := by
  induction l with
  | nil => simp [setA, getA]
  | cons p t ih =>
      by_cases h : p.1 = k
      · simp [setA, h, getA]
      · simp [setA, h, getA, ih]

theorem getA_setA_ne (l : List (α × β)) (k k' : α) (v : β) (h : k' ≠ k) :
    getA (setA l k v) k' = getA l k' := by
  induction l with
  | nil => simp [setA, getA, h.symm]
  | cons p t ih =>
      by_cases hp : p.1 = k
      · simp [setA, hp, getA, h.symm]
      · simp [setA, hp, getA, ih]

theorem getA_delA_ne (l : List (α × β)) (k k' : α) (h : k' ≠ k) :
    getA (delA l k) k' = getA l k' := by
  induction l with
  | nil => simp [delA]
  | cons p t ih =>
      by_cases hp : p.1 = k
      · simp [delA, hp, getA, h.symm]
      · simp [delA, hp, getA, ih]

theorem mem_keys_of_getA {l : List (α × β)} {k : α} {v : β} (h : getA l k = some v) :
    k ∈ l.map Prod.fst := by
  induction l with
  | nil => simp [getA] at h
  | cons p t ih =>
      by_cases hp : p.1 = k
      · rw [List.map_cons, ← hp]
        exact List.mem_cons_self _ _
      · simp only [getA, if_neg hp] at h
        rw [List.map_cons]
        exact List.mem_cons_of_mem _ (ih h)

theorem getA_eq_none_of_not_mem {l : List (α × β)} {k : α} (h : k ∉ l.map Prod.fst) :
    getA l k = none := by
  induction l with
  | nil => rfl
  | cons p t ih =>
      rw [List.map_cons, List.mem_cons] at h
      have h1 : ¬ p.1 = k := fun hh => h (Or.inl hh.symm)
      have h2 : k ∉ t.map Prod.fst := fun hh => h (Or.inr hh)
      simp only [getA, if_neg h1]
      exact ih h2

theorem getA_isSome_iff_mem_keys (l : List (α × β)) (k : α) :
    (getA l k).isSome = true ↔ k ∈ l.map Prod.fst := by
  induction l with
  | nil => simp [getA]
  | cons p t ih =>
      by_cases hp : p.1 = k
      · simp [getA, hp]
      · simp only [getA, if_neg hp, List.map_cons, List.mem_cons, ih]
        constructor
        · intro hh
          exact Or.inr hh
        · rintro (hh | hh)
          · exact absurd hh.symm hp
          · exact hh

theorem getA_delA_self {l : List (α × β)} {k : α} (h : (l.map Prod.fst).Nodup) :
    getA (delA l k) k = none := by
  induction l with
  | nil => rfl
  | cons p t ih =>
      rw [List.map_cons, List.nodup_cons] at h
      by_cases hp : p.1 = k
      · simp only [delA, if_pos hp]
        exact getA_eq_none_of_not_mem (hp ▸ h.1)
      · simp only [delA, if_neg hp, getA, if_neg hp]
        exact ih h.2

theorem setA_self {l : List (α × β)} {k : α} {v : β} (h : getA l k = some v) :
    setA l k v = l := by
  induction l with
  | nil => simp [getA] at h
  | cons p t ih =>
      by_cases hp : p.1 = k
      · simp only [getA, if_pos hp] at h
        injection h with h
        simp [setA, if_pos hp, ← hp, ← h]
      · simp only [getA, if_neg hp] at h
        simp only [setA, if_neg hp, ih h]

theorem keys_delA_subset {l : List (α × β)} {k x : α}
    (h : x ∈ (delA l k).map Prod.fst) : x ∈ l.map Prod.fst := by
  induction l with
  | nil => simp [delA] at h
  | cons p t ih =>
      rw [List.map_cons]
      by_cases hp : p.1 = k
      · simp only [delA, if_pos hp] at h
        exact List.mem_cons_of_mem _ h
      · simp only [delA, if_neg hp, List.map_cons, List.mem_cons] at h
        rcases h with h | h
        · subst h
          exact List.mem_cons_self _ _
        · exact List.mem_cons_of_mem _ (ih h)

theorem mem_keys_delA {l : List (α × β)} {k x : α} (h : (l.map Prod.fst).Nodup) :
    x ∈ (delA l k).map Prod.fst ↔ x ∈ l.map Prod.fst ∧ x ≠ k := by
  induction l with
  | nil => simp [delA]
  | cons p t ih =>
      rw [List.map_cons, List.nodup_cons] at h
      by_cases hp : p.1 = k
      · simp only [delA, if_pos hp, List.map_cons, List.mem_cons]
        constructor
        · intro hx
          refine ⟨Or.inr hx, ?_⟩
          intro hxk
          exact h.1 (hp.symm ▸ hxk ▸ hx)
        · rintro ⟨hx | hx, hne⟩
          · exact absurd (hx.trans hp) hne
          · exact hx
      · simp only [delA, if_neg hp, List.map_cons, List.mem_cons, ih h.2]
        constructor
        · rintro (hx | ⟨hx, hne⟩)
          · exact ⟨Or.inl hx, fun hc => hp (hx.symm.trans hc)⟩
          · exact ⟨Or.inr hx, hne⟩
        · rintro ⟨hx | hx, hne⟩
          · exact Or.inl hx
          · exact Or.inr ⟨hx, hne⟩

theorem nodup_keys_delA {l : List (α × β)} {k : α} (h : (l.map Prod.fst).Nodup) :
    ((delA l k).map Prod.fst).Nodup := by
  induction l with
  | nil => simp [delA]
  | cons p t ih =>
      rw [List.map_cons, List.nodup_cons] at h
      by_cases hp : p.1 = k
      · simp only [delA, if_pos hp]
        exact h.2
      · simp only [delA, if_neg hp, List.map_cons, List.nodup_cons]
        exact ⟨fun hx => h.1 (keys_delA_subset hx), ih h.2⟩

theorem keys_setA_mem {l : List (α × β)} {k : α} {v : β}
    (h : k ∈ l.map Prod.fst) : (setA l k v).map Prod.fst = l.map Prod.fst := by
  induction l with
  | nil => simp at h
  | cons p t ih =>
      by_cases hp : p.1 = k
      · simp [setA, if_pos hp, hp]
      · rw [List.map_cons, List.mem_cons] at h
        rcases h with h | h
        · exact absurd h.symm hp
        · simp only [setA, if_neg hp, List.map_cons, ih h]

theorem keys_setA_not_mem {l : List (α × β)} {k : α} {v : β}
    (h : k ∉ l.map Prod.fst) : (setA l k v).map Prod.fst = l.map Prod.fst ++ [k] := by
  induction l with
  | nil => simp [setA]
  | cons p t ih =>
      rw [List.map_cons, List.mem_cons] at h
      have h1 : ¬ p.1 = k := fun hh => h (Or.inl hh.symm)
      have h2 : k ∉ t.map Prod.fst := fun hh => h (Or.inr hh)
      simp only [setA, if_neg h1, List.map_cons, ih h2, List.cons_append]

theorem nodup_keys_setA {l : List (α × β)} {k : α} {v : β}
    (h : (l.map Prod.fst).Nodup) : ((setA l k v).map Prod.fst).Nodup := by
  by_cases hm : k ∈ l.map Prod.fst
  · rw [keys_setA_mem hm]
    exact h
  · rw [keys_setA_not_mem hm, List.nodup_append]
    refine ⟨h, List.nodup_singleton _, ?_⟩
    intro a ha hb
    rw [List.mem_singleton] at hb
    exact hm (hb ▸ ha)

theorem mem_remS_ne {l : List α} {x y : α} (h : x ≠ y) :
    x ∈ remS l y ↔ x ∈ l := by
  induction l with
  | nil => simp [remS]
  | cons a t ih =>
      by_cases ha : a = y
      · simp only [remS, if_pos ha, List.mem_cons]
        constructor
        · exact Or.inr
        · rintro (hx | hx)
          · exact absurd (hx.trans ha) h
          · exact hx
      · simp only [remS, if_neg ha, List.mem_cons, ih]

theorem mem_remS_subset {l : List α} {x y : α} (h : x ∈ remS l y) : x ∈ l := by
  induction l with
  | nil => simp [remS] at h
  | cons a t ih =>
      by_cases ha : a = y
      · simp only [remS, if_pos ha] at h
        exact List.mem_cons_of_mem _ h
      · simp only [remS, if_neg ha, List.mem_cons] at h
        rcases h with h | h
        · subst h
          exact List.mem_cons_self _ _
        · exact List.mem_cons_of_mem _ (ih h)

theorem not_mem_remS_self {l : List α} {y : α} (h : l.Nodup) : y ∉ remS l y := by
  induction l with
  | nil => simp [remS]
  | cons a t ih =>
      rw [List.nodup_cons] at h
      by_cases ha : a = y
      · simp only [remS, if_pos ha]
        exact ha ▸ h.1
      · simp only [remS, if_neg ha, List.mem_cons]
        rintro (hh | hh)
        · exact ha hh.symm
        · exact ih h.2 hh

theorem nodup_remS {l : List α} {y : α} (h : l.Nodup) : (remS l y).Nodup := by
  induction l with
  | nil => simp [remS]
  | cons a t ih =>
      rw [List.nodup_cons] at h
      by_cases ha : a = y
      · simp only [remS, if_pos ha]
        exact h.2
      · simp only [remS, if_neg ha, List.nodup_cons]
        exact ⟨fun hx => h.1 (mem_remS_subset hx), ih h.2⟩

theorem mem_addS {l : List α} {x y : α} : x ∈ addS l y ↔ x ∈ l ∨ x = y := by
  unfold addS
  by_cases hm : y ∈ l
  · rw [if_pos hm]
    constructor
    · exact Or.inl
    · rintro (hx | hx)
      · exact hx
      · rw [hx]
        exact hm
  · rw [if_neg hm]
    simp

theorem nodup_addS {l : List α} {y : α} (h : l.Nodup) : (addS l y).Nodup := by
  unfold addS
  by_cases hm : y ∈ l
  · rw [if_pos hm]
    exact h
  · rw [if_neg hm, List.nodup_append]
    refine ⟨h, List.nodup_singleton _, ?_⟩
    intro a ha hb
    rw [List.mem_singleton] at hb
    exact hm (hb ▸ ha)

end AssocLemmas

/-! ### Components untouched by event tracking -/

theorem emitAndTrack_lastMemberships (now : Nat) (s : PatreonState) (e : PEvent) :
    (emitAndTrack now s e).lastMemberships = s.lastMemberships := by
  cases e with
  | subscribed m => rfl
  | canceled m => rfl
  | declined m => rfl
  | reactivated m => rfl
  | expired m => rfl
  | connected m =>
      cases hm : m.discordId with
      | none => simp [emitAndTrack, hm]
      | some d => by_cases hd : d = "" <;> simp [emitAndTrack, hm, hd]
  | disconnected m =>
      cases hm : m.discordId with
      | none => simp [emitAndTrack, hm]
      | some d => by_cases hd : d = "" <;> simp [emitAndTrack, hm, hd]

theorem emitAndTrack_lastDiscordIds (now : Nat) (s : PatreonState) (e : PEvent) :
    (emitAndTrack now s e).lastDiscordIds = s.lastDiscordIds := by
  cases e with
  | subscribed m => rfl
  | canceled m => rfl
  | declined m => rfl
  | reactivated m => rfl
  | expired m => rfl
  | connected m =>
      cases hm : m.discordId with
      | none => simp [emitAndTrack, hm]
      | some d => by_cases hd : d = "" <;> simp [emitAndTrack, hm, hd]
  | disconnected m =>
      cases hm : m.discordId with
      | none => simp [emitAndTrack, hm]
      | some d => by_cases hd : d = "" <;> simp [emitAndTrack, hm, hd]

theorem emitAndTrack_isFirstRun (now : Nat) (s : PatreonState) (e : PEvent) :
    (emitAndTrack now s e).isFirstRun = s.isFirstRun := by
  cases e with
  | subscribed m => rfl
  | canceled m => rfl
  | declined m => rfl
  | reactivated m => rfl
  | expired m => rfl
  | connected m =>
      cases hm : m.discordId with
      | none => simp [emitAndTrack, hm]
      | some d => by_cases hd : d = "" <;> simp [emitAndTrack, hm, hd]
  | disconnected m =>
      cases hm : m.discordId with
      | none => simp [emitAndTrack, hm]
      | some d => by_cases hd : d = "" <;> simp [emitAndTrack, hm, hd]

/-! ### Tracking sequences pinned to one entity id -/

/-- States reachable from s by a sequence of emitAndTrack steps all of whose
events carry the entity id i.  Every per-member and per-removed-key phase of
checkForUpdates produces such a sequence on its dedup components. -/
inductive TrackStar (i : Option String) : PatreonState → PatreonState → Prop where
  | refl (s : PatreonState) : TrackStar i s s
  | step (s t : PatreonState) (now : Nat) (e : PEvent) (he : eventId e = i)
      (h : TrackStar i s t) : TrackStar i s (emitAndTrack now t e)

theorem TrackStar.trans {i : Option String} {s t u : PatreonState}
    (h1 : TrackStar i s t) (h2 : TrackStar i t u) : TrackStar i s u := by
  induction h2 with
  | refl => exact h1
  | step u now e he h ih => exact TrackStar.step _ _ now e he ih

theorem TrackStar.preserve {P : PatreonState → Prop}
    (hP : ∀ (now : Nat) (s : PatreonState) (e : PEvent), P s → P (emitAndTrack now s e))
    {i : Option String} {s t : PatreonState} (h : TrackStar i s t) (hs : P s) : P t := by
  induction h with
  | refl => exact hs
  | step t now e he h ih => exact hP now t e ih

theorem trackStar_lastMemberships {i : Option String} {s t : PatreonState}
    (h : TrackStar i s t) : t.lastMemberships = s.lastMemberships := by
  induction h with
  | refl => rfl
  | step t now e he h ih => rw [emitAndTrack_lastMemberships, ih]

theorem trackStar_lastDiscordIds {i : Option String} {s t : PatreonState}
    (h : TrackStar i s t) : t.lastDiscordIds = s.lastDiscordIds := by
  induction h with
  | refl => rfl
  | step t now e he h ih => rw [emitAndTrack_lastDiscordIds, ih]

theorem trackStar_isFirstRun {i : Option String} {s t : PatreonState}
    (h : TrackStar i s t) : t.isFirstRun = s.isFirstRun := by
  induction h with
  | refl => rfl
  | step t now e he h ih => rw [emitAndTrack_isFirstRun, ih]

/-- Agreement of the six dedup trackers at one entity id. -/
def DedupAgreeAt (x : Option String) (t s : PatreonState) : Prop :=
  (x ∈ t.subscribedMembers ↔ x ∈ s.subscribedMembers) ∧
  getA t.canceledMembers x = getA s.canceledMembers x ∧
  getA t.declinedMembers x = getA s.declinedMembers x ∧
  getA t.reactivatedMembers x = getA s.reactivatedMembers x ∧
  getA t.connectedDiscords x = getA s.connectedDiscords x ∧
  getA t.disconnectedDiscords x = getA s.disconnectedDiscords x

theorem dedupAgreeAt_refl (x : Option String) (s : PatreonState) : DedupAgreeAt x s s :=
  ⟨Iff.rfl, rfl, rfl, rfl, rfl, rfl⟩

theorem dedupAgreeAt_trans {x : Option String} {u t s : PatreonState}
    (h1 : DedupAgreeAt x u t) (h2 : DedupAgreeAt x t s) : DedupAgreeAt x u s :=
  ⟨h1.1.trans h2.1, h1.2.1.trans h2.2.1, h1.2.2.1.trans h2.2.2.1,
   h1.2.2.2.1.trans h2.2.2.2.1, h1.2.2.2.2.1.trans h2.2.2.2.2.1,
   h1.2.2.2.2.2.trans h2.2.2.2.2.2⟩

theorem emitAndTrack_dedupAgree (now : Nat) (s : PatreonState) (e : PEvent)
    {x : Option String} (h : x ≠ eventId e) : DedupAgreeAt x (emitAndTrack now s e) s := by
  cases e with
  | subscribed m =>
      refine ⟨?_, ?_, ?_, rfl, rfl, rfl⟩
      · rw [show (emitAndTrack now s (PEvent.subscribed m)).subscribedMembers
              = addS s.subscribedMembers m.id from rfl]
        rw [mem_addS]
        constructor
        · rintro (hx | hx)
          · exact hx
          · exact absurd hx h
        · exact Or.inl
      · exact getA_delA_ne _ _ _ h
      · exact getA_delA_ne _ _ _ h
  | reactivated m =>
      exact ⟨Iff.rfl, getA_delA_ne _ _ _ h, getA_delA_ne _ _ _ h,
             getA_setA_ne _ _ _ _ h, rfl, rfl⟩
  | canceled m =>
      exact ⟨mem_remS_ne h, getA_setA_ne _ _ _ _ h, rfl, getA_delA_ne _ _ _ h, rfl, rfl⟩
  | declined m =>
      exact ⟨mem_remS_ne h, rfl, getA_setA_ne _ _ _ _ h, getA_delA_ne _ _ _ h, rfl, rfl⟩
  | expired m =>
      exact ⟨mem_remS_ne h, rfl, rfl, rfl, rfl, rfl⟩
  | connected m =>
      cases hm : m.discordId with
      | none => simp only [emitAndTrack, hm]; exact dedupAgreeAt_refl x s
      | some d =>
          by_cases hd : d = ""
          · simp only [emitAndTrack, hm, if_pos hd]
            exact dedupAgreeAt_refl x s
          · simp only [emitAndTrack, hm, if_neg hd]
            exact ⟨Iff.rfl, rfl, rfl, rfl, getA_setA_ne _ _ _ _ h, getA_delA_ne _ _ _ h⟩
  | disconnected m =>
      cases hm : m.discordId with
      | none => simp only [emitAndTrack, hm]; exact dedupAgreeAt_refl x s
      | some d =>
          by_cases hd : d = ""
          · simp only [emitAndTrack, hm, if_pos hd]
            exact dedupAgreeAt_refl x s
          · simp only [emitAndTrack, hm, if_neg hd]
            exact ⟨Iff.rfl, rfl, rfl, rfl, getA_delA_ne _ _ _ h, getA_setA_ne _ _ _ _ h⟩

theorem trackStar_dedupAgree {i : Option String} {s t : PatreonState}
    (h : TrackStar i s t) {x : Option String} (hx : x ≠ i) : DedupAgreeAt x t s := by
  induction h with
  | refl => exact dedupAgreeAt_refl x _
  | step t now e he h ih =>
      exact dedupAgreeAt_trans (emitAndTrack_dedupAgree now t e (by rw [he]; exact hx)) ih

/-! ### Well-formedness preservation -/

theorem emitAndTrack_WF (now : Nat) (s : PatreonState) (e : PEvent) (h : WFState s) :
    WFState (emitAndTrack now s e) := by
  obtain ⟨h1, h2, h3, h4, h5, h6, h7, h8⟩ := h
  cases e with
  | subscribed m =>
      exact ⟨h1, h2, nodup_addS h3, nodup_keys_delA h4, nodup_keys_delA h5, h6, h7, h8⟩
  | reactivated m =>
      exact ⟨h1, h2, h3, nodup_keys_delA h4, nodup_keys_delA h5, nodup_keys_setA h6, h7, h8⟩
  | canceled m =>
      exact ⟨h1, h2, nodup_remS h3, nodup_keys_setA h4, h5, nodup_keys_delA h6, h7, h8⟩
  | declined m =>
      exact ⟨h1, h2, nodup_remS h3, h4, nodup_keys_setA h5, nodup_keys_delA h6, h7, h8⟩
  | expired m =>
      exact ⟨h1, h2, nodup_remS h3, h4, h5, h6, h7, h8⟩
  | connected m =>
      cases hm : m.discordId with
      | none =>
          simp only [emitAndTrack, hm]
          exact ⟨h1, h2, h3, h4, h5, h6, h7, h8⟩
      | some d =>
          by_cases hd : d = ""
          · simp only [emitAndTrack, hm, if_pos hd]
            exact ⟨h1, h2, h3, h4, h5, h6, h7, h8⟩
          · simp only [emitAndTrack, hm, if_neg hd]
            exact ⟨h1, h2, h3, h4, h5, h6, nodup_keys_setA h7, nodup_keys_delA h8⟩
  | disconnected m =>
      cases hm : m.discordId with
      | none =>
          simp only [emitAndTrack, hm]
          exact ⟨h1, h2, h3, h4, h5, h6, h7, h8⟩
      | some d =>
          by_cases hd : d = ""
          · simp only [emitAndTrack, hm, if_pos hd]
            exact ⟨h1, h2, h3, h4, h5, h6, h7, h8⟩
          · simp only [emitAndTrack, hm, if_neg hd]
            exact ⟨h1, h2, h3, h4, h5, h6, nodup_keys_delA h7, nodup_keys_setA h8⟩

theorem trackStar_WF {i : Option String} {s t : PatreonState}
    (h : TrackStar i s t) (hs : WFState s) : WFState t :=
  TrackStar.preserve (fun now s e hp => emitAndTrack_WF now s e hp) h hs

/-! ### Tracking-star facts for each engine branch -/

theorem emitIf_star {i : Option String} {s : PatreonState} {c : Prop} [Decidable c]
    (now : Nat) (a : List PEvent × PatreonState) (e : PEvent) (he : eventId e = i)
    (h : TrackStar i s a.2) : TrackStar i s (if c then emitStep now a e else a).2 := by
  split
  · exact TrackStar.step _ _ now e he h
  · exact h

theorem lifecycleNew_star (now : Nat) (s : PatreonState) (m : MembershipData) :
    TrackStar m.id s (lifecycleNew now s m).2 := by
  unfold lifecycleNew
  exact emitIf_star now ([], s) (PEvent.subscribed m) rfl (TrackStar.refl s)

theorem statusChanged_star (now : Nat) (s : PatreonState) (m : MembershipData)
    (prev : String) : TrackStar m.id s (statusChanged now s m prev).2 := by
  simp only [statusChanged]
  exact emitIf_star now _ _ rfl (emitIf_star now _ _ rfl
    (emitIf_star now _ _ rfl (emitIf_star now _ _ rfl (TrackStar.refl s))))

theorem lifecycleStep_star (now : Nat) (s : PatreonState) (m : MembershipData)
    (ps : Option String) : TrackStar m.id s (lifecycleStep now s m ps).2 := by
  cases ps with
  | none => exact lifecycleNew_star now s m
  | some prev =>
      simp only [lifecycleStep]
      by_cases hp : prev = ""
      · rw [if_pos hp]
        exact lifecycleNew_star now s m
      · rw [if_neg hp]
        by_cases hps : prev = m.status
        · rw [if_pos hps]
          exact TrackStar.refl s
        · rw [if_neg hps]
          exact statusChanged_star now s m prev

theorem linkageNoPrev_star (now : Nat) (s : PatreonState) (m : MembershipData) :
    TrackStar m.id s (linkageNoPrev now s m).2 := by
  unfold linkageNoPrev
  exact emitIf_star now ([], s) (PEvent.connected m) rfl (TrackStar.refl s)

theorem linkageWithPrev_star (now : Nat) (s : PatreonState) (m : MembershipData)
    (prevD : String) : TrackStar m.id s (linkageWithPrev now s m prevD).2 := by
  cases hm : m.discordId with
  | none =>
      simp only [linkageWithPrev, hm]
      exact emitIf_star now ([], s) _ rfl (TrackStar.refl s)
  | some d =>
      simp only [linkageWithPrev, hm]
      by_cases hd : d = ""
      · rw [if_pos hd]
        exact emitIf_star now ([], s) _ rfl (TrackStar.refl s)
      · rw [if_neg hd]
        by_cases hpd : prevD = d
        · rw [if_pos hpd]
          exact TrackStar.refl s
        · rw [if_neg hpd]
          exact emitIf_star now _ _ rfl (emitIf_star now ([], s) _ rfl (TrackStar.refl s))

theorem linkageStep_star (now : Nat) (s : PatreonState) (m : MembershipData)
    (pd : Option (Option String)) : TrackStar m.id s (linkageStep now s m pd).2 := by
  cases pd with
  | none => exact linkageNoPrev_star now s m
  | some o =>
      cases o with
      | none => exact linkageNoPrev_star now s m
      | some prevD => exact linkageWithPrev_star now s m prevD

/-! ### Per-branch event lists -/

/-- All events in an accumulator satisfy a predicate. -/
def EventsOk (p : PEvent → Prop) (a : List PEvent × PatreonState) : Prop :=
  ∀ e ∈ a.1, p e

theorem eventsOk_nil (p : PEvent → Prop) (s : PatreonState) : EventsOk p ([], s) := by
  intro e he
  exact absurd he (List.not_mem_nil e)

theorem eventsOk_emitStep {p : PEvent → Prop} {a : List PEvent × PatreonState}
    (now : Nat) (e : PEvent) (h : EventsOk p a) (hp : p e) :
    EventsOk p (emitStep now a e) := by
  intro x hx
  rcases List.mem_append.mp hx with hx | hx
  · exact h x hx
  · have hx' := List.mem_singleton.mp hx
    rw [hx']
    exact hp

theorem eventsOk_emitIf {p : PEvent → Prop} {a : List PEvent × PatreonState}
    {c : Prop} [Decidable c] (now : Nat) (e : PEvent)
    (h : EventsOk p a) (hp : p e) : EventsOk p (if c then emitStep now a e else a) := by
  split
  · exact eventsOk_emitStep now e h hp
  · exact h

theorem lifecycleNew_events (now : Nat) (s : PatreonState) (m : MembershipData) :
    EventsOk (fun e => eventId e = m.id ∧ isLifecycleEvent e = true) (lifecycleNew now s m) := by
  unfold lifecycleNew
  exact eventsOk_emitIf now _ (eventsOk_nil _ s) ⟨rfl, rfl⟩

theorem statusChanged_events (now : Nat) (s : PatreonState) (m : MembershipData)
    (prev : String) :
    EventsOk (fun e => eventId e = m.id ∧ isLifecycleEvent e = true)
      (statusChanged now s m prev) := by
  simp only [statusChanged]
  exact eventsOk_emitIf now _ (eventsOk_emitIf now _ (eventsOk_emitIf now _
    (eventsOk_emitIf now _ (eventsOk_nil _ s) ⟨rfl, rfl⟩) ⟨rfl, rfl⟩) ⟨rfl, rfl⟩) ⟨rfl, rfl⟩

theorem lifecycleStep_events (now : Nat) (s : PatreonState) (m : MembershipData)
    (ps : Option String) :
    EventsOk (fun e => eventId e = m.id ∧ isLifecycleEvent e = true)
      (lifecycleStep now s m ps) := by
  cases ps with
  | none => exact lifecycleNew_events now s m
  | some prev =>
      simp only [lifecycleStep]
      by_cases hp : prev = ""
      · rw [if_pos hp]
        exact lifecycleNew_events now s m
      · rw [if_neg hp]
        by_cases hps : prev = m.status
        · rw [if_pos hps]
          exact eventsOk_nil _ s
        · rw [if_neg hps]
          exact statusChanged_events now s m prev

theorem linkageNoPrev_events (now : Nat) (s : PatreonState) (m : MembershipData) :
    EventsOk (fun e => eventId e = m.id ∧ isLinkageEvent e = true) (linkageNoPrev now s m) := by
  unfold linkageNoPrev
  exact eventsOk_emitIf now _ (eventsOk_nil _ s) ⟨rfl, rfl⟩

theorem linkageWithPrev_events (now : Nat) (s : PatreonState) (m : MembershipData)
    (prevD : String) :
    EventsOk (fun e => eventId e = m.id ∧ isLinkageEvent e = true)
      (linkageWithPrev now s m prevD) := by
  cases hm : m.discordId with
  | none =>
      simp only [linkageWithPrev, hm]
      exact eventsOk_emitIf now _ (eventsOk_nil _ s) ⟨rfl, rfl⟩
  | some d =>
      simp only [linkageWithPrev, hm]
      by_cases hd : d = ""
      · rw [if_pos hd]
        exact eventsOk_emitIf now _ (eventsOk_nil _ s) ⟨rfl, rfl⟩
      · rw [if_neg hd]
        by_cases hpd : prevD = d
        · rw [if_pos hpd]
          exact eventsOk_nil _ s
        · rw [if_neg hpd]
          exact eventsOk_emitIf now _ (eventsOk_emitIf now _ (eventsOk_nil _ s) ⟨rfl, rfl⟩) ⟨rfl, rfl⟩

theorem linkageStep_events (now : Nat) (s : PatreonState) (m : MembershipData)
    (pd : Option (Option String)) :
    EventsOk (fun e => eventId e = m.id ∧ isLinkageEvent e = true)
      (linkageStep now s m pd) := by
  cases pd with
  | none => exact linkageNoPrev_events now s m
  | some o =>
      cases o with
      | none => exact linkageNoPrev_events now s m
      | some prevD => exact linkageWithPrev_events now s m prevD

/-! ### Facts about processMember -/

theorem processMember_eventsSplit (now : Nat) (s : PatreonState) (m : MembershipData) :
    (processMember now s m).1
      = (lifecycleStep now s m (getA s.lastMemberships m.id)).1
        ++ (linkageStep now (lifecycleStep now s m (getA s.lastMemberships m.id)).2 m
              (getA s.lastDiscordIds m.id)).1 := rfl

theorem processMember_events (now : Nat) (s : PatreonState) (m : MembershipData) :
    ∀ e ∈ (processMember now s m).1, eventId e = m.id := by
  intro e he
  rw [processMember_eventsSplit] at he
  rcases List.mem_append.mp he with he | he
  · exact (lifecycleStep_events now s m _ e he).1
  · exact (linkageStep_events now _ m _ e he).1

theorem processMember_lastMemberships (now : Nat) (s : PatreonState) (m : MembershipData) :
    (processMember now s m).2.lastMemberships = setA s.lastMemberships m.id m.status := by
  simp only [processMember]
  rw [trackStar_lastMemberships (linkageStep_star now _ m _),
      trackStar_lastMemberships (lifecycleStep_star now s m _)]

theorem processMember_lastDiscordIds (now : Nat) (s : PatreonState) (m : MembershipData) :
    (processMember now s m).2.lastDiscordIds = setA s.lastDiscordIds m.id m.discordId := by
  simp only [processMember]
  rw [trackStar_lastDiscordIds (linkageStep_star now _ m _),
      trackStar_lastDiscordIds (lifecycleStep_star now s m _)]

theorem processMember_isFirstRun (now : Nat) (s : PatreonState) (m : MembershipData) :
    (processMember now s m).2.isFirstRun = s.isFirstRun := by
  simp only [processMember]
  rw [trackStar_isFirstRun (linkageStep_star now _ m _),
      trackStar_isFirstRun (lifecycleStep_star now s m _)]

theorem processMember_dedupAgree (now : Nat) (s : PatreonState) (m : MembershipData)
    {x : Option String} (hx : x ≠ m.id) :
    DedupAgreeAt x (processMember now s m).2 s := by
  simp only [processMember]
  exact trackStar_dedupAgree
    ((lifecycleStep_star now s m _).trans (linkageStep_star now _ m _)) hx

theorem processMember_WF (now : Nat) (s : PatreonState) (m : MembershipData)
    (h : WFState s) : WFState (processMember now s m).2 := by
  have hb := trackStar_WF ((lifecycleStep_star now s m
      (getA s.lastMemberships m.id)).trans (linkageStep_star now _ m
      (getA s.lastDiscordIds m.id))) h
  obtain ⟨h1, h2, h3, h4, h5, h6, h7, h8⟩ := hb
  exact ⟨nodup_keys_setA h1, nodup_keys_setA h2, h3, h4, h5, h6, h7, h8⟩

/-! ### Fold normalization for the two loops -/

theorem processBatch_nil (now : Nat) (s : PatreonState) : processBatch now s [] = ([], s) := rfl

theorem foldl_stepMember_norm (now : Nat) (ms : List MembershipData) :
    ∀ (evs : List PEvent) (s : PatreonState),
      List.foldl (stepMember now) (evs, s) ms
        = (evs ++ (processBatch now s ms).1, (processBatch now s ms).2) := by
  induction ms with
  | nil =>
      intro evs s
      simp [processBatch]
  | cons m t ih =>
      intro evs s
      rw [List.foldl_cons]
      have h1 : stepMember now (evs, s) m
          = (evs ++ (processMember now s m).1, (processMember now s m).2) := rfl
      rw [h1, ih]
      have h2 : processBatch now s (m :: t)
          = List.foldl (stepMember now) (stepMember now ([], s) m) t := rfl
      have h3 : stepMember now (([] : List PEvent), s) m
          = ((processMember now s m).1, (processMember now s m).2) := by
        simp [stepMember]
      rw [h2, h3, ih]
      simp [List.append_assoc]

theorem processBatch_cons (now : Nat) (s : PatreonState) (m : MembershipData)
    (t : List MembershipData) :
    processBatch now s (m :: t)
      = ((processMember now s m).1 ++ (processBatch now (processMember now s m).2 t).1,
         (processBatch now (processMember now s m).2 t).2) := by
  have h2 : processBatch now s (m :: t)
      = List.foldl (stepMember now) (stepMember now ([], s) m) t := rfl
  have h3 : stepMember now (([] : List PEvent), s) m
      = ((processMember now s m).1, (processMember now s m).2) := by
    simp [stepMember]
  rw [h2, h3, foldl_stepMember_norm]

theorem processRemoved_nil (now : Nat) (cur : List (Option String)) (s : PatreonState) :
    processRemoved now cur s [] = ([], s) := rfl

theorem removedStep_shift (now : Nat) (cur : List (Option String)) (k : Option String)
    (evs : List PEvent) (s : PatreonState) :
    removedStep now cur (evs, s) k
      = (evs ++ (removedStep now cur ([], s) k).1, (removedStep now cur ([], s) k).2) := by
  unfold removedStep
  by_cases hc : k ∈ cur
  · simp [hc]
  · simp only [if_neg hc]
    cases hda : getA s.lastDiscordIds k with
    | none => simp
    | some o =>
        cases o with
        | none => simp
        | some d =>
            by_cases hd : d = ""
            · simp [hd]
            · by_cases hp : hasProcessedEvent s "disconnected"
                  ⟨k, match getA s.lastMemberships k with
                      | some st => if st = "" then "none" else st
                      | none => "none", some d⟩ = false
              · simp [hd, hp, emitStep]
              · simp [hd, hp]

theorem foldl_removedStep_norm (now : Nat) (cur : List (Option String))
    (ks : List (Option String)) :
    ∀ (evs : List PEvent) (s : PatreonState),
      List.foldl (removedStep now cur) (evs, s) ks
        = (evs ++ (processRemoved now cur s ks).1, (processRemoved now cur s ks).2) := by
  induction ks with
  | nil =>
      intro evs s
      simp [processRemoved]
  | cons k t ih =>
      intro evs s
      rw [List.foldl_cons, removedStep_shift, ih]
      have h2 : processRemoved now cur s (k :: t)
          = List.foldl (removedStep now cur) (removedStep now cur ([], s) k) t := rfl
      rw [h2, removedStep_shift now cur k [] s]
      rw [show ((([] : List PEvent) ++ (removedStep now cur ([], s) k).1,
            (removedStep now cur ([], s) k).2))
          = ((removedStep now cur ([], s) k).1, (removedStep now cur ([], s) k).2) by simp]
      rw [ih]
      simp [List.append_assoc]

theorem processRemoved_cons (now : Nat) (cur : List (Option String)) (s : PatreonState)
    (k : Option String) (t : List (Option String)) :
    processRemoved now cur s (k :: t)
      = ((removedStep now cur ([], s) k).1
            ++ (processRemoved now cur (removedStep now cur ([], s) k).2 t).1,
         (processRemoved now cur (removedStep now cur ([], s) k).2 t).2) := by
  have h2 : processRemoved now cur s (k :: t)
      = List.foldl (removedStep now cur) (removedStep now cur ([], s) k) t := rfl
  rw [h2, removedStep_shift now cur k [] s]
  rw [show ((([] : List PEvent) ++ (removedStep now cur ([], s) k).1,
        (removedStep now cur ([], s) k).2))
      = ((removedStep now cur ([], s) k).1, (removedStep now cur ([], s) k).2) by simp]
  rw [foldl_removedStep_norm]

/-! ### Case analysis of one removed-member iteration -/

theorem removedStep_skip (now : Nat) (cur : List (Option String))
    (a : List PEvent × PatreonState) (k : Option String) (h : k ∈ cur) :
    removedStep now cur a k = a := by
  unfold removedStep
  rw [if_pos h]

theorem removedStep_cases (now : Nat) (cur : List (Option String))
    (a : List PEvent × PatreonState) (k : Option String) :
    removedStep now cur a k = a ∨
    removedStep now cur a k
        = (a.1, { a.2 with lastMemberships := delA a.2.lastMemberships k,
                           lastDiscordIds := delA a.2.lastDiscordIds k }) ∨
    ∃ dm : MembershipData, dm.id = k ∧
      removedStep now cur a k
        = (a.1 ++ [PEvent.disconnected dm],
           { emitAndTrack now a.2 (PEvent.disconnected dm) with
               lastMemberships
                 := delA (emitAndTrack now a.2 (PEvent.disconnected dm)).lastMemberships k,
               lastDiscordIds
                 := delA (emitAndTrack now a.2 (PEvent.disconnected dm)).lastDiscordIds k }) := by
  by_cases hc : k ∈ cur
  · exact Or.inl (removedStep_skip now cur a k hc)
  · unfold removedStep
    simp only [if_neg hc]
    cases hda : getA a.2.lastDiscordIds k with
    | none => exact Or.inr (Or.inl rfl)
    | some o =>
        cases o with
        | none => exact Or.inr (Or.inl rfl)
        | some d =>
            by_cases hd : d = ""
            · refine Or.inr (Or.inl ?_)
              simp [hd]
            · by_cases hp : hasProcessedEvent a.2 "disconnected"
                  ⟨k, match getA a.2.lastMemberships k with
                      | some st => if st = "" then "none" else st
                      | none => "none", some d⟩ = false
              · refine Or.inr (Or.inr ⟨⟨k, match getA a.2.lastMemberships k with
                      | some st => if st = "" then "none" else st
                      | none => "none", some d⟩, rfl, ?_⟩)
                simp [hd, hp, emitStep]
              · refine Or.inr (Or.inl ?_)
                simp [hd, hp]

/-! ### The disconnected tracking never touches lifecycle trackers -/

theorem emitAndTrack_disc_subscribedMembers (now : Nat) (s : PatreonState) (m : MembershipData) :
    (emitAndTrack now s (PEvent.disconnected m)).subscribedMembers = s.subscribedMembers := by
  cases hm : m.discordId with
  | none => simp [emitAndTrack, hm]
  | some d => by_cases hd : d = "" <;> simp [emitAndTrack, hm, hd]

theorem emitAndTrack_disc_canceledMembers (now : Nat) (s : PatreonState) (m : MembershipData) :
    (emitAndTrack now s (PEvent.disconnected m)).canceledMembers = s.canceledMembers := by
  cases hm : m.discordId with
  | none => simp [emitAndTrack, hm]
  | some d => by_cases hd : d = "" <;> simp [emitAndTrack, hm, hd]

theorem emitAndTrack_disc_declinedMembers (now : Nat) (s : PatreonState) (m : MembershipData) :
    (emitAndTrack now s (PEvent.disconnected m)).declinedMembers = s.declinedMembers := by
  cases hm : m.discordId with
  | none => simp [emitAndTrack, hm]
  | some d => by_cases hd : d = "" <;> simp [emitAndTrack, hm, hd]

theorem emitAndTrack_disc_reactivatedMembers (now : Nat) (s : PatreonState) (m : MembershipData) :
    (emitAndTrack now s (PEvent.disconnected m)).reactivatedMembers = s.reactivatedMembers := by
  cases hm : m.discordId with
  | none => simp [emitAndTrack, hm]
  | some d => by_cases hd : d = "" <;> simp [emitAndTrack, hm, hd]

/-! ### Component corollaries for removedStep -/

theorem removedStep_subscribedMembers (now : Nat) (cur : List (Option String))
    (a : List PEvent × PatreonState) (k : Option String) :
    (removedStep now cur a k).2.subscribedMembers = a.2.subscribedMembers := by
  rcases removedStep_cases now cur a k with h | h | ⟨dm, hdm, h⟩ <;> rw [h]
  exact emitAndTrack_disc_subscribedMembers now a.2 dm

theorem removedStep_canceledMembers (now : Nat) (cur : List (Option String))
    (a : List PEvent × PatreonState) (k : Option String) :
    (removedStep now cur a k).2.canceledMembers = a.2.canceledMembers := by
  rcases removedStep_cases now cur a k with h | h | ⟨dm, hdm, h⟩ <;> rw [h]
  exact emitAndTrack_disc_canceledMembers now a.2 dm

theorem removedStep_declinedMembers (now : Nat) (cur : List (Option String))
    (a : List PEvent × PatreonState) (k : Option String) :
    (removedStep now cur a k).2.declinedMembers = a.2.declinedMembers := by
  rcases removedStep_cases now cur a k with h | h | ⟨dm, hdm, h⟩ <;> rw [h]
  exact emitAndTrack_disc_declinedMembers now a.2 dm

theorem removedStep_reactivatedMembers (now : Nat) (cur : List (Option String))
    (a : List PEvent × PatreonState) (k : Option String) :
    (removedStep now cur a k).2.reactivatedMembers = a.2.reactivatedMembers := by
  rcases removedStep_cases now cur a k with h | h | ⟨dm, hdm, h⟩ <;> rw [h]
  exact emitAndTrack_disc_reactivatedMembers now a.2 dm

theorem removedStep_isFirstRun (now : Nat) (cur : List (Option String))
    (a : List PEvent × PatreonState) (k : Option String) :
    (removedStep now cur a k).2.isFirstRun = a.2.isFirstRun := by
  rcases removedStep_cases now cur a k with h | h | ⟨dm, hdm, h⟩ <;> rw [h]
  exact emitAndTrack_isFirstRun now a.2 (PEvent.disconnected dm)

theorem removedStep_events_sub (now : Nat) (cur : List (Option String))
    (a : List PEvent × PatreonState) (k : Option String) :
    ∀ e ∈ (removedStep now cur a k).1,
      e ∈ a.1 ∨ (isDisconnectedEvent e = true ∧ eventId e = k) := by
  intro e he
  rcases removedStep_cases now cur a k with h | h | ⟨dm, hdm, h⟩ <;> rw [h] at he
  · exact Or.inl he
  · exact Or.inl he
  · rcases List.mem_append.mp he with he | he
    · exact Or.inl he
    · have he' := List.mem_singleton.mp he
      rw [he']
      exact Or.inr ⟨rfl, hdm⟩

theorem removedStep_WF (now : Nat) (cur : List (Option String))
    (a : List PEvent × PatreonState) (k : Option String) (h : WFState a.2) :
    WFState (removedStep now cur a k).2 := by
  rcases removedStep_cases now cur a k with hh | hh | ⟨dm, hdm, hh⟩ <;> rw [hh]
  · exact h
  · obtain ⟨h1, h2, h3, h4, h5, h6, h7, h8⟩ := h
    exact ⟨nodup_keys_delA h1, nodup_keys_delA h2, h3, h4, h5, h6, h7, h8⟩
  · obtain ⟨h1, h2, h3, h4, h5, h6, h7, h8⟩ := emitAndTrack_WF now a.2 (PEvent.disconnected dm) h
    exact ⟨nodup_keys_delA h1, nodup_keys_delA h2, h3, h4, h5, h6, h7, h8⟩

theorem removedStep_agreeAt (now : Nat) (cur : List (Option String))
    (a : List PEvent × PatreonState) (k : Option String) {x : Option String} (hx : x ≠ k) :
    DedupAgreeAt x (removedStep now cur a k).2 a.2 ∧
    getA (removedStep now cur a k).2.lastMemberships x = getA a.2.lastMemberships x ∧
    getA (removedStep now cur a k).2.lastDiscordIds x = getA a.2.lastDiscordIds x := by
  rcases removedStep_cases now cur a k with h | h | ⟨dm, hdm, h⟩ <;> rw [h]
  · exact ⟨dedupAgreeAt_refl x a.2, rfl, rfl⟩
  · exact ⟨dedupAgreeAt_refl x a.2, getA_delA_ne _ _ _ hx, getA_delA_ne _ _ _ hx⟩
  · refine ⟨emitAndTrack_dedupAgree now a.2 (PEvent.disconnected dm) (by rw [show eventId (PEvent.disconnected dm) = dm.id from rfl, hdm]; exact hx), ?_, ?_⟩
    · rw [emitAndTrack_lastMemberships]
      exact getA_delA_ne _ _ _ hx
    · rw [emitAndTrack_lastDiscordIds]
      exact getA_delA_ne _ _ _ hx

theorem removedStep_preserveAt (now : Nat) (cur : List (Option String))
    (a : List PEvent × PatreonState) (k : Option String) {x : Option String} (hx : x ∈ cur) :
    DedupAgreeAt x (removedStep now cur a k).2 a.2 ∧
    getA (removedStep now cur a k).2.lastMemberships x = getA a.2.lastMemberships x ∧
    getA (removedStep now cur a k).2.lastDiscordIds x = getA a.2.lastDiscordIds x := by
  by_cases hkx : x = k
  · rw [removedStep_skip now cur a k (hkx ▸ hx)]
    exact ⟨dedupAgreeAt_refl x a.2, rfl, rfl⟩
  · exact removedStep_agreeAt now cur a k hkx

/-! ### Whole-loop lemmas for the member phase -/

theorem processBatch_events (now : Nat) (ms : List MembershipData) :
    ∀ (s : PatreonState), ∀ e ∈ (processBatch now s ms).1,
      eventId e ∈ ms.map MembershipData.id := by
  induction ms with
  | nil =>
      intro s e he
      simp [processBatch_nil] at he
  | cons m t ih =>
      intro s e he
      rw [processBatch_cons] at he
      rcases List.mem_append.mp he with he | he
      · rw [List.map_cons, processMember_events now s m e he]
        exact List.mem_cons_self _ _
      · rw [List.map_cons]
        exact List.mem_cons_of_mem _ (ih _ e he)

theorem processBatch_isFirstRun (now : Nat) (ms : List MembershipData) :
    ∀ (s : PatreonState), (processBatch now s ms).2.isFirstRun = s.isFirstRun := by
  induction ms with
  | nil => intro s; rfl
  | cons m t ih =>
      intro s
      rw [processBatch_cons]
      rw [show ((processMember now s m).1 ++ (processBatch now (processMember now s m).2 t).1,
            (processBatch now (processMember now s m).2 t).2).2
          = (processBatch now (processMember now s m).2 t).2 from rfl]
      rw [ih, processMember_isFirstRun]

theorem processBatch_WF (now : Nat) (ms : List MembershipData) :
    ∀ (s : PatreonState), WFState s → WFState (processBatch now s ms).2 := by
  induction ms with
  | nil => intro s h; exact h
  | cons m t ih =>
      intro s h
      rw [processBatch_cons]
      exact ih _ (processMember_WF now s m h)

theorem processBatch_agreeAt (now : Nat) (ms : List MembershipData) {x : Option String} :
    ∀ (s : PatreonState), (∀ m ∈ ms, m.id ≠ x) →
      DedupAgreeAt x (processBatch now s ms).2 s ∧
      getA (processBatch now s ms).2.lastMemberships x = getA s.lastMemberships x ∧
      getA (processBatch now s ms).2.lastDiscordIds x = getA s.lastDiscordIds x := by
  induction ms with
  | nil => intro s _; exact ⟨dedupAgreeAt_refl x s, rfl, rfl⟩
  | cons m t ih =>
      intro s hx
      have hmx : m.id ≠ x := hx m (List.mem_cons_self m t)
      have htx : ∀ m' ∈ t, m'.id ≠ x := fun m' hm' => hx m' (List.mem_cons_of_mem m hm')
      obtain ⟨ia, il, id2⟩ := ih (processMember now s m).2 htx
      rw [processBatch_cons]
      refine ⟨dedupAgreeAt_trans ia (processMember_dedupAgree now s m (Ne.symm hmx)), ?_, ?_⟩
      · rw [il, processMember_lastMemberships]
        exact getA_setA_ne _ _ _ _ (Ne.symm hmx)
      · rw [id2, processMember_lastDiscordIds]
        exact getA_setA_ne _ _ _ _ (Ne.symm hmx)

/-! ### Whole-loop lemmas for the removed-member phase -/

theorem processRemoved_lifecycleComponents (now : Nat) (cur : List (Option String))
    (ks : List (Option String)) :
    ∀ (s : PatreonState),
      (processRemoved now cur s ks).2.subscribedMembers = s.subscribedMembers ∧
      (processRemoved now cur s ks).2.canceledMembers = s.canceledMembers ∧
      (processRemoved now cur s ks).2.declinedMembers = s.declinedMembers ∧
      (processRemoved now cur s ks).2.reactivatedMembers = s.reactivatedMembers ∧
      (processRemoved now cur s ks).2.isFirstRun = s.isFirstRun := by
  induction ks with
  | nil => intro s; exact ⟨rfl, rfl, rfl, rfl, rfl⟩
  | cons k t ih =>
      intro s
      obtain ⟨i1, i2, i3, i4, i5⟩ := ih (removedStep now cur ([], s) k).2
      rw [processRemoved_cons]
      exact ⟨i1.trans (removedStep_subscribedMembers now cur ([], s) k),
             i2.trans (removedStep_canceledMembers now cur ([], s) k),
             i3.trans (removedStep_declinedMembers now cur ([], s) k),
             i4.trans (removedStep_reactivatedMembers now cur ([], s) k),
             i5.trans (removedStep_isFirstRun now cur ([], s) k)⟩

theorem processRemoved_events_disc (now : Nat) (cur : List (Option String))
    (ks : List (Option String)) :
    ∀ (s : PatreonState), ∀ e ∈ (processRemoved now cur s ks).1,
      isDisconnectedEvent e = true ∧ eventId e ∈ ks := by
  induction ks with
  | nil =>
      intro s e he
      simp [processRemoved_nil] at he
  | cons k t ih =>
      intro s e he
      rw [processRemoved_cons] at he
      rcases List.mem_append.mp he with he | he
      · rcases removedStep_events_sub now cur ([], s) k e he with he' | he'
        · exact absurd he' (List.not_mem_nil e)
        · exact ⟨he'.1, he'.2 ▸ List.mem_cons_self _ _⟩
      · obtain ⟨hd, hm⟩ := ih _ e he
        exact ⟨hd, List.mem_cons_of_mem _ hm⟩

theorem processRemoved_WF (now : Nat) (cur : List (Option String))
    (ks : List (Option String)) :
    ∀ (s : PatreonState), WFState s → WFState (processRemoved now cur s ks).2 := by
  induction ks with
  | nil => intro s h; exact h
  | cons k t ih =>
      intro s h
      rw [processRemoved_cons]
      exact ih _ (removedStep_WF now cur ([], s) k h)

theorem processRemoved_preserveAt (now : Nat) (cur : List (Option String))
    (ks : List (Option String)) {x : Option String} (hx : x ∈ cur) :
    ∀ (s : PatreonState),
      DedupAgreeAt x (processRemoved now cur s ks).2 s ∧
      getA (processRemoved now cur s ks).2.lastMemberships x = getA s.lastMemberships x ∧
      getA (processRemoved now cur s ks).2.lastDiscordIds x = getA s.lastDiscordIds x := by
  induction ks with
  | nil => intro s; exact ⟨dedupAgreeAt_refl x s, rfl, rfl⟩
  | cons k t ih =>
      intro s
      obtain ⟨ia, il, id2⟩ := ih (removedStep now cur ([], s) k).2
      obtain ⟨ja, jl, jd⟩ := removedStep_preserveAt now cur ([], s) k hx
      rw [processRemoved_cons]
      exact ⟨dedupAgreeAt_trans ia ja, il.trans jl, id2.trans jd⟩

theorem processRemoved_agreeKeys (now : Nat) (cur : List (Option String))
    (ks : List (Option String)) {x : Option String} :
    ∀ (s : PatreonState), (∀ k ∈ ks, k ≠ x) →
      DedupAgreeAt x (processRemoved now cur s ks).2 s ∧
      getA (processRemoved now cur s ks).2.lastMemberships x = getA s.lastMemberships x ∧
      getA (processRemoved now cur s ks).2.lastDiscordIds x = getA s.lastDiscordIds x := by
  induction ks with
  | nil => intro s _; exact ⟨dedupAgreeAt_refl x s, rfl, rfl⟩
  | cons k t ih =>
      intro s hk
      have hkx : x ≠ k := Ne.symm (hk k (List.mem_cons_self k t))
      obtain ⟨ia, il, id2⟩ := ih (removedStep now cur ([], s) k).2
        (fun k' hk' => hk k' (List.mem_cons_of_mem k hk'))
      obtain ⟨ja, jl, jd⟩ := removedStep_agreeAt now cur ([], s) k hkx
      rw [processRemoved_cons]
      exact ⟨dedupAgreeAt_trans ia ja, il.trans jl, id2.trans jd⟩

/-! ### Top-level decomposition of checkForUpdates -/

theorem checkForUpdates_events_split (now : Nat) (s : PatreonState)
    (batch : List MembershipData) :
    (checkForUpdates now s batch).1
      = (processBatch now s batch).1
        ++ (processRemoved now (batch.map (fun m => m.id)) (processBatch now s batch).2
              ((processBatch now s batch).2.lastMemberships.map (fun p => p.1))).1 := rfl

theorem checkForUpdates_state (now : Nat) (s : PatreonState) (batch : List MembershipData) :
    (checkForUpdates now s batch).2
      = { (processRemoved now (batch.map (fun m => m.id)) (processBatch now s batch).2
            ((processBatch now s batch).2.lastMemberships.map (fun p => p.1))).2
          with isFirstRun := false } := rfl

theorem checkForUpdates_isFirstRun (now : Nat) (s : PatreonState)
    (batch : List MembershipData) :
    (checkForUpdates now s batch).2.isFirstRun = false := rfl

theorem checkForUpdates_WF (now : Nat) (s : PatreonState) (batch : List MembershipData)
    (h : WFState s) : WFState (checkForUpdates now s batch).2 := by
  obtain ⟨h1, h2, h3, h4, h5, h6, h7, h8⟩ :=
    processRemoved_WF now (batch.map (fun m => m.id))
      ((processBatch now s batch).2.lastMemberships.map (fun p => p.1))
      (processBatch now s batch).2 (processBatch_WF now batch s h)
  exact ⟨h1, h2, h3, h4, h5, h6, h7, h8⟩

/-! ### Mutual-exclusion invariants on the dedup trackers -/

/-- No entity id is recorded in both connected-linkage and
disconnected-linkage. -/
def ConnExcl (s : PatreonState) : Prop :=
  ∀ i, getA s.connectedDiscords i = none ∨ getA s.disconnectedDiscords i = none

/-- An id in the subscribed-set has neither a canceled-at nor a declined-at
record. -/
def SubExcl (s : PatreonState) : Prop :=
  ∀ i, i ∈ s.subscribedMembers →
    getA s.canceledMembers i = none ∧ getA s.declinedMembers i = none

theorem emitAndTrack_connExcl (now : Nat) (s : PatreonState) (e : PEvent)
    (hw : WFState s) (h : ConnExcl s) : ConnExcl (emitAndTrack now s e) := by
  obtain ⟨h1, h2, h3, h4, h5, h6, h7, h8⟩ := hw
  cases e with
  | subscribed m => exact h
  | canceled m => exact h
  | declined m => exact h
  | reactivated m => exact h
  | expired m => exact h
  | connected m =>
      cases hm : m.discordId with
      | none => simp only [emitAndTrack, hm]; exact h
      | some d =>
          by_cases hd : d = ""
          · simp only [emitAndTrack, hm, if_pos hd]; exact h
          · simp only [emitAndTrack, hm, if_neg hd]
            intro i
            by_cases him : i = m.id
            · subst him
              exact Or.inr (getA_delA_self h8)
            · rcases h i with hc | hc
              · exact Or.inl ((getA_setA_ne _ _ _ _ him).trans hc)
              · exact Or.inr ((getA_delA_ne _ _ _ him).trans hc)
  | disconnected m =>
      cases hm : m.discordId with
      | none => simp only [emitAndTrack, hm]; exact h
      | some d =>
          by_cases hd : d = ""
          · simp only [emitAndTrack, hm, if_pos hd]; exact h
          · simp only [emitAndTrack, hm, if_neg hd]
            intro i
            by_cases him : i = m.id
            · subst him
              exact Or.inl (getA_delA_self h7)
            · rcases h i with hc | hc
              · exact Or.inl ((getA_delA_ne _ _ _ him).trans hc)
              · exact Or.inr ((getA_setA_ne _ _ _ _ him).trans hc)

theorem emitAndTrack_subExcl (now : Nat) (s : PatreonState) (e : PEvent)
    (hw : WFState s) (h : SubExcl s) : SubExcl (emitAndTrack now s e) := by
  obtain ⟨h1, h2, h3, h4, h5, h6, h7, h8⟩ := hw
  cases e with
  | subscribed m =>
      intro i hi
      rcases mem_addS.mp hi with hx | hx
      · by_cases him : i = m.id
        · subst him
          exact ⟨getA_delA_self h4, getA_delA_self h5⟩
        · have hh := h i hx
          exact ⟨(getA_delA_ne _ _ _ him).trans hh.1, (getA_delA_ne _ _ _ him).trans hh.2⟩
      · subst hx
        exact ⟨getA_delA_self h4, getA_delA_self h5⟩
  | reactivated m =>
      intro i hi
      by_cases him : i = m.id
      · subst him
        exact ⟨getA_delA_self h4, getA_delA_self h5⟩
      · have hh := h i hi
        exact ⟨(getA_delA_ne _ _ _ him).trans hh.1, (getA_delA_ne _ _ _ him).trans hh.2⟩
  | canceled m =>
      intro i hi
      have him : i ≠ m.id := by
        intro hh
        subst hh
        exact not_mem_remS_self h3 hi
      have hh := h i ((mem_remS_ne him).mp hi)
      exact ⟨(getA_setA_ne _ _ _ _ him).trans hh.1, hh.2⟩
  | declined m =>
      intro i hi
      have him : i ≠ m.id := by
        intro hh
        subst hh
        exact not_mem_remS_self h3 hi
      have hh := h i ((mem_remS_ne him).mp hi)
      exact ⟨hh.1, (getA_setA_ne _ _ _ _ him).trans hh.2⟩
  | expired m =>
      intro i hi
      exact h i (mem_remS_subset hi)
  | connected m =>
      cases hm : m.discordId with
      | none => simp only [emitAndTrack, hm]; exact h
      | some d =>
          by_cases hd : d = ""
          · simp only [emitAndTrack, hm, if_pos hd]; exact h
          · simp only [emitAndTrack, hm, if_neg hd]; exact h
  | disconnected m =>
      cases hm : m.discordId with
      | none => simp only [emitAndTrack, hm]; exact h
      | some d =>
          by_cases hd : d = ""
          · simp only [emitAndTrack, hm, if_pos hd]; exact h
          · simp only [emitAndTrack, hm, if_neg hd]; exact h

theorem processMember_connExcl (now : Nat) (s : PatreonState) (m : MembershipData)
    (h : WFState s ∧ ConnExcl s) :
    WFState (processMember now s m).2 ∧ ConnExcl (processMember now s m).2 := by
  have hb := @TrackStar.preserve (fun u => WFState u ∧ ConnExcl u)
    (fun now u e hp => ⟨emitAndTrack_WF now u e hp.1, emitAndTrack_connExcl now u e hp.1 hp.2⟩)
    _ _ _
    ((lifecycleStep_star now s m (getA s.lastMemberships m.id)).trans
      (linkageStep_star now _ m (getA s.lastDiscordIds m.id))) h
  exact ⟨processMember_WF now s m h.1, hb.2⟩

theorem processMember_subExcl (now : Nat) (s : PatreonState) (m : MembershipData)
    (h : WFState s ∧ SubExcl s) :
    WFState (processMember now s m).2 ∧ SubExcl (processMember now s m).2 := by
  have hb := @TrackStar.preserve (fun u => WFState u ∧ SubExcl u)
    (fun now u e hp => ⟨emitAndTrack_WF now u e hp.1, emitAndTrack_subExcl now u e hp.1 hp.2⟩)
    _ _ _
    ((lifecycleStep_star now s m (getA s.lastMemberships m.id)).trans
      (linkageStep_star now _ m (getA s.lastDiscordIds m.id))) h
  exact ⟨processMember_WF now s m h.1, hb.2⟩

theorem removedStep_connExcl (now : Nat) (cur : List (Option String))
    (a : List PEvent × PatreonState) (k : Option String)
    (h : WFState a.2 ∧ ConnExcl a.2) :
    WFState (removedStep now cur a k).2 ∧ ConnExcl (removedStep now cur a k).2 := by
  refine ⟨removedStep_WF now cur a k h.1, ?_⟩
  rcases removedStep_cases now cur a k with hh | hh | ⟨dm, hdm, hh⟩ <;> rw [hh]
  · exact h.2
  · exact h.2
  · exact emitAndTrack_connExcl now a.2 (PEvent.disconnected dm) h.1 h.2

theorem removedStep_subExcl (now : Nat) (cur : List (Option String))
    (a : List PEvent × PatreonState) (k : Option String)
    (h : WFState a.2 ∧ SubExcl a.2) :
    WFState (removedStep now cur a k).2 ∧ SubExcl (removedStep now cur a k).2 := by
  refine ⟨removedStep_WF now cur a k h.1, ?_⟩
  rcases removedStep_cases now cur a k with hh | hh | ⟨dm, hdm, hh⟩ <;> rw [hh]
  · exact h.2
  · exact h.2
  · exact emitAndTrack_subExcl now a.2 (PEvent.disconnected dm) h.1 h.2

theorem checkForUpdates_connExcl (now : Nat) (s : PatreonState) (batch : List MembershipData)
    (hw : WFState s) (h : ConnExcl s) : ConnExcl (checkForUpdates now s batch).2 := by
  have hbatch : ∀ (u : PatreonState), WFState u ∧ ConnExcl u →
      WFState (processBatch now u batch).2 ∧ ConnExcl (processBatch now u batch).2 := by
    induction batch with
    | nil => intro u hu; exact hu
    | cons m t ih =>
        intro u hu
        rw [processBatch_cons]
        exact ih _ (processMember_connExcl now u m hu)
  have hrem : ∀ (ks : List (Option String)) (u : PatreonState), WFState u ∧ ConnExcl u →
      WFState (processRemoved now (batch.map (fun m => m.id)) u ks).2 ∧
      ConnExcl (processRemoved now (batch.map (fun m => m.id)) u ks).2 := by
    intro ks
    induction ks with
    | nil => intro u hu; exact hu
    | cons k t ih =>
        intro u hu
        rw [processRemoved_cons]
        exact ih _ (removedStep_connExcl now _ ([], u) k hu)
  exact (hrem _ _ (hbatch s ⟨hw, h⟩)).2

theorem checkForUpdates_subExcl (now : Nat) (s : PatreonState) (batch : List MembershipData)
    (hw : WFState s) (h : SubExcl s) : SubExcl (checkForUpdates now s batch).2 := by
  have hbatch : ∀ (u : PatreonState), WFState u ∧ SubExcl u →
      WFState (processBatch now u batch).2 ∧ SubExcl (processBatch now u batch).2 := by
    induction batch with
    | nil => intro u hu; exact hu
    | cons m t ih =>
        intro u hu
        rw [processBatch_cons]
        exact ih _ (processMember_subExcl now u m hu)
  have hrem : ∀ (ks : List (Option String)) (u : PatreonState), WFState u ∧ SubExcl u →
      WFState (processRemoved now (batch.map (fun m => m.id)) u ks).2 ∧
      SubExcl (processRemoved now (batch.map (fun m => m.id)) u ks).2 := by
    intro ks
    induction ks with
    | nil => intro u hu; exact hu
    | cons k t ih =>
        intro u hu
        rw [processRemoved_cons]
        exact ih _ (removedStep_subExcl now _ ([], u) k hu)
  exact (hrem _ _ (hbatch s ⟨hw, h⟩)).2

/-! ### Concrete runs used as counterexamples -/

/-- State after one cold-start tick that observes member A with linkage D1
(connected is emitted and recorded even on the first run). -/
def stateAfterColdStart : PatreonState :=
  (checkForUpdates 1 initialState [⟨some "A", "active_patron", some "D1"⟩]).2

/-- Reachable states for the cancel-then-decline scenario. -/
def c2tick0 : PatreonState :=
  (checkForUpdates 0 initialState [⟨some "A", "active_patron", none⟩]).2

def c2tick1 : PatreonState :=
  (checkForUpdates 1 c2tick0 [⟨some "A", "former_patron", none⟩]).2

def c2tick2 : PatreonState :=
  (checkForUpdates 2 c2tick1 [⟨some "A", "declined_patron", none⟩]).2

/-- Batch with two records for the same entity id. -/
def c3batch : List MembershipData :=
  [⟨some "A", "active_patron", none⟩, ⟨some "A", "former_patron", none⟩]

def c3first : List PEvent × PatreonState :=
  checkForUpdates 0 { initialState with isFirstRun := false } c3batch

/-- Reachable states for the resubscribe-after-removal scenario: cold start,
A subscribes, A disappears from the batch (the removal sweep deletes A from
the status and linkage maps but not from the subscribed-set). -/
def c4t0 : PatreonState := (checkForUpdates 0 initialState []).2

def c4t1 : PatreonState :=
  (checkForUpdates 1 c4t0 [⟨some "A", "active_patron", none⟩]).2

def c4t2 : PatreonState := (checkForUpdates 2 c4t1 []).2

def c8state : PatreonState := { initialState with isFirstRun := false }

/-- Record whose raw id field is missing (undefined). -/
def c8malformed : MembershipData := ⟨none, "active_patron", none⟩

/-- Previous state of the C6 scenario: A active with linkage D1, fresh dedup
trackers, not the first run. -/
def c6prev : PatreonState :=
  { initialState with lastMemberships := [(some "A", "active_patron")],
                      lastDiscordIds := [(some "A", some "D1")],
                      isFirstRun := false }

/-- Claim C1, counterexample: from a reachable state tracking member A with
linkage D1, a tick whose fetch fails emits a disconnected event and changes
the persisted state, so the tick neither aborts early nor leaves the previous
state unchanged. -/
theorem claim1_counterexample :
    (tickOnFetchError 2 stateAfterColdStart).1 ≠ [] ∧
    (tickOnFetchError 2 stateAfterColdStart).2 ≠ stateAfterColdStart := by
  decide

/-- Claim C2, counterexample: after three reachable ticks (A active, A
canceled, A declined) the id A holds both a canceled-at and a declined-at
record, so an entity id can appear in two of the three lifecycle trackers
after a tick. -/
theorem claim2_counterexample :
    getA c2tick2.canceledMembers (some "A") ≠ none ∧
    getA c2tick2.declinedMembers (some "A") ≠ none := by
  decide

/-- Claim C3, counterexample: for a batch holding two records with the same
entity id, running the reconciliation a second time from the updated state
emits further events (a reactivated and a canceled), so the second run is not
silent. -/
theorem claim3_counterexample :
    (checkForUpdates 1 c3first.2 c3batch).1 ≠ [] := by
  decide

/-- Claim C4, counterexample: entity A is absent from the previous status
map, present in the batch, and the run is not the first, yet no subscribed
event fires, because A is still recorded in the subscribed-set from an
earlier cycle. -/
theorem claim4_counterexample :
    getA c4t2.lastMemberships (some "A") = none ∧
    c4t2.isFirstRun = false ∧
    (checkForUpdates 3 c4t2 [⟨some "A", "active_patron", none⟩]).1.filter
        (isSubscribedFor (some "A")) = [] ∧
    some "A" ∈ c4t2.subscribedMembers := by
  decide

/-- Claim C8, counterexample: a record with a missing id is not skipped: the
tick emits a subscribed event for it and enters the undefined id into the
status map. -/
theorem claim8_counterexample :
    (checkForUpdates 0 c8state [c8malformed]).1 = [PEvent.subscribed c8malformed] ∧
    getA (checkForUpdates 0 c8state [c8malformed]).2.lastMemberships none
      = some "active_patron" := by
  decide

/-! ### First-run simulation: the flag only gates the subscribed event -/

theorem hasProcessedEvent_subscribed_eq (s : PatreonState) (m : MembershipData) :
    hasProcessedEvent s "subscribed" m
      = (if m.id ∈ s.subscribedMembers then true else false) := rfl

theorem hasProcessedEvent_connected_eq (s : PatreonState) (m : MembershipData) :
    hasProcessedEvent s "connected" m
      = (match getA s.connectedDiscords m.id with
         | some d => if m.discordId = some d then true else false
         | none => false) := rfl

theorem hasProcessedEvent_disconnected_eq (s : PatreonState) (m : MembershipData) :
    hasProcessedEvent s "disconnected" m
      = (match getA s.disconnectedDiscords m.id with
         | some d => if m.discordId = some d then true else false
         | none => false) := rfl

/-- Relation between a tick run with isFirstRun still true and the same tick
run with isFirstRun false: the components consulted by every guard other than
the first-run check of the subscribed branch coincide. -/
def FirstRunSim (t f : PatreonState) : Prop :=
  t.lastMemberships = f.lastMemberships ∧
  t.lastDiscordIds = f.lastDiscordIds ∧
  t.connectedDiscords = f.connectedDiscords ∧
  t.disconnectedDiscords = f.disconnectedDiscords ∧
  t.isFirstRun = true ∧ f.isFirstRun = false

theorem sim_hasProcessed_conn {t f : PatreonState} (h : FirstRunSim t f)
    (m : MembershipData) :
    hasProcessedEvent t "connected" m = hasProcessedEvent f "connected" m := by
  rw [hasProcessedEvent_connected_eq, hasProcessedEvent_connected_eq, h.2.2.1]

theorem sim_hasProcessed_disc {t f : PatreonState} (h : FirstRunSim t f)
    (m : MembershipData) :
    hasProcessedEvent t "disconnected" m = hasProcessedEvent f "disconnected" m := by
  rw [hasProcessedEvent_disconnected_eq, hasProcessedEvent_disconnected_eq, h.2.2.2.1]

theorem sim_emitAndTrack (now : Nat) {t f : PatreonState} (h : FirstRunSim t f)
    (e : PEvent) : FirstRunSim (emitAndTrack now t e) (emitAndTrack now f e) := by
  obtain ⟨s1, s2, s3, s4, s5, s6⟩ := h
  cases e with
  | subscribed m => exact ⟨s1, s2, s3, s4, s5, s6⟩
  | canceled m => exact ⟨s1, s2, s3, s4, s5, s6⟩
  | declined m => exact ⟨s1, s2, s3, s4, s5, s6⟩
  | reactivated m => exact ⟨s1, s2, s3, s4, s5, s6⟩
  | expired m => exact ⟨s1, s2, s3, s4, s5, s6⟩
  | connected m =>
      cases hm : m.discordId with
      | none =>
          simp only [emitAndTrack, hm]
          exact ⟨s1, s2, s3, s4, s5, s6⟩
      | some d =>
          by_cases hd : d = ""
          · simp only [emitAndTrack, hm, if_pos hd]
            exact ⟨s1, s2, s3, s4, s5, s6⟩
          · simp only [emitAndTrack, hm, if_neg hd]
            exact ⟨s1, s2, by rw [s3], by rw [s4], s5, s6⟩
  | disconnected m =>
      cases hm : m.discordId with
      | none =>
          simp only [emitAndTrack, hm]
          exact ⟨s1, s2, s3, s4, s5, s6⟩
      | some d =>
          by_cases hd : d = ""
          · simp only [emitAndTrack, hm, if_pos hd]
            exact ⟨s1, s2, s3, s4, s5, s6⟩
          · simp only [emitAndTrack, hm, if_neg hd]
            exact ⟨s1, s2, by rw [s3], by rw [s4], s5, s6⟩

/-- Accumulator simulation: identical event lists so far and related states. -/
def SimAcc (a b : List PEvent × PatreonState) : Prop :=
  a.1 = b.1 ∧ FirstRunSim a.2 b.2

theorem simAcc_emitStep {a b : List PEvent × PatreonState} (now : Nat) (e : PEvent)
    (h : SimAcc a b) : SimAcc (emitStep now a e) (emitStep now b e) := by
  refine ⟨?_, sim_emitAndTrack now h.2 e⟩
  rw [show (emitStep now a e).1 = a.1 ++ [e] from rfl,
      show (emitStep now b e).1 = b.1 ++ [e] from rfl, h.1]

theorem simAcc_emitIf {a b : List PEvent × PatreonState} {c : Prop} [Decidable c]
    (now : Nat) (e : PEvent) (h : SimAcc a b) :
    SimAcc (if c then emitStep now a e else a) (if c then emitStep now b e else b) := by
  split
  · exact simAcc_emitStep now e h
  · exact h

theorem sim_statusChanged (now : Nat) {t f : PatreonState} (h : FirstRunSim t f)
    (m : MembershipData) (prev : String) :
    SimAcc (statusChanged now t m prev) (statusChanged now f m prev) := by
  simp only [statusChanged]
  exact simAcc_emitIf now _ (simAcc_emitIf now _ (simAcc_emitIf now _
    (simAcc_emitIf now _ ⟨rfl, h⟩)))

theorem sim_linkageNoPrev (now : Nat) {t f : PatreonState} (h : FirstRunSim t f)
    (m : MembershipData) :
    SimAcc (linkageNoPrev now t m) (linkageNoPrev now f m) := by
  unfold linkageNoPrev
  rw [sim_hasProcessed_conn h]
  exact simAcc_emitIf now _ ⟨rfl, h⟩

theorem sim_linkageWithPrev (now : Nat) {t f : PatreonState} (h : FirstRunSim t f)
    (m : MembershipData) (prevD : String) :
    SimAcc (linkageWithPrev now t m prevD) (linkageWithPrev now f m prevD) := by
  cases hm : m.discordId with
  | none =>
      simp only [linkageWithPrev, hm]
      rw [sim_hasProcessed_disc h]
      exact simAcc_emitIf now _ ⟨rfl, h⟩
  | some d =>
      simp only [linkageWithPrev, hm]
      by_cases hd : d = ""
      · simp only [if_pos hd]
        rw [sim_hasProcessed_disc h]
        exact simAcc_emitIf now _ ⟨rfl, h⟩
      · simp only [if_neg hd]
        by_cases hpd : prevD = d
        · simp only [if_pos hpd]
          exact ⟨rfl, h⟩
        · simp only [if_neg hpd]
          rw [sim_hasProcessed_disc h]
          have h1 : SimAcc
              (if hasProcessedEvent f "disconnected" { m with discordId := some prevD } = false
               then emitStep now ([], t)
                 (PEvent.disconnected { m with discordId := some prevD })
               else ([], t))
              (if hasProcessedEvent f "disconnected" { m with discordId := some prevD } = false
               then emitStep now ([], f)
                 (PEvent.disconnected { m with discordId := some prevD })
               else ([], f)) := simAcc_emitIf now _ ⟨rfl, h⟩
          rw [sim_hasProcessed_conn h1.2]
          exact simAcc_emitIf now _ h1

theorem sim_linkageStep (now : Nat) {t f : PatreonState} (h : FirstRunSim t f)
    (m : MembershipData) (pd : Option (Option String)) :
    SimAcc (linkageStep now t m pd) (linkageStep now f m pd) := by
  cases pd with
  | none => exact sim_linkageNoPrev now h m
  | some o =>
      cases o with
      | none => exact sim_linkageNoPrev now h m
      | some prevD => exact sim_linkageWithPrev now h m prevD

theorem isLinkage_not_sub (e : PEvent) (h : isLinkageEvent e = true) :
    isSubscribedEvent e = false := by
  cases e <;> simp [isLinkageEvent, isSubscribedEvent] at h ⊢

theorem isDisc_not_sub (e : PEvent) (h : isDisconnectedEvent e = true) :
    isSubscribedEvent e = false := by
  cases e <;> simp [isDisconnectedEvent, isSubscribedEvent] at h ⊢

theorem noSubFilter {l : List PEvent} (h : ∀ e ∈ l, isSubscribedEvent e = false) :
    l.filter (fun e => !(isSubscribedEvent e)) = l := by
  apply List.filter_eq_self.mpr
  intro a ha
  rw [h a ha]
  rfl

theorem statusChanged_noSub (now : Nat) (s : PatreonState) (m : MembershipData)
    (prev : String) :
    EventsOk (fun e => isSubscribedEvent e = false) (statusChanged now s m prev) := by
  simp only [statusChanged]
  exact eventsOk_emitIf now _ (eventsOk_emitIf now _ (eventsOk_emitIf now _
    (eventsOk_emitIf now _ (eventsOk_nil _ s) rfl) rfl) rfl) rfl

theorem sim_lifecycleNew (now : Nat) {t f : PatreonState} (h : FirstRunSim t f)
    (m : MembershipData) :
    (lifecycleNew now t m).1
      = ((lifecycleNew now f m).1).filter (fun e => !(isSubscribedEvent e)) ∧
    FirstRunSim (lifecycleNew now t m).2 (lifecycleNew now f m).2 := by
  have ht : lifecycleNew now t m = ([], t) := by
    unfold lifecycleNew
    rw [if_neg]
    intro hc
    rw [h.2.2.2.2.1] at hc
    exact absurd hc.1 (by decide)
  rw [ht]
  unfold lifecycleNew
  split
  · constructor
    · simp [emitStep, isSubscribedEvent]
    · exact ⟨h.1, h.2.1, h.2.2.1, h.2.2.2.1, h.2.2.2.2.1, h.2.2.2.2.2⟩
  · exact ⟨by simp, h⟩

theorem sim_lifecycleStep (now : Nat) {t f : PatreonState} (h : FirstRunSim t f)
    (m : MembershipData) (ps : Option String) :
    (lifecycleStep now t m ps).1
      = ((lifecycleStep now f m ps).1).filter (fun e => !(isSubscribedEvent e)) ∧
    FirstRunSim (lifecycleStep now t m ps).2 (lifecycleStep now f m ps).2 := by
  cases ps with
  | none => exact sim_lifecycleNew now h m
  | some prev =>
      simp only [lifecycleStep]
      by_cases hp : prev = ""
      · simp only [if_pos hp]
        exact sim_lifecycleNew now h m
      · simp only [if_neg hp]
        by_cases hps : prev = m.status
        · simp only [if_pos hps]
          exact ⟨by simp, h⟩
        · simp only [if_neg hps]
          have hsc := sim_statusChanged now h m prev
          refine ⟨?_, hsc.2⟩
          rw [hsc.1, noSubFilter (fun e he => statusChanged_noSub now f m prev e he)]

theorem sim_processMember (now : Nat) {t f : PatreonState} (h : FirstRunSim t f)
    (m : MembershipData) :
    (processMember now t m).1
      = ((processMember now f m).1).filter (fun e => !(isSubscribedEvent e)) ∧
    FirstRunSim (processMember now t m).2 (processMember now f m).2 := by
  have hps : getA t.lastMemberships m.id = getA f.lastMemberships m.id := by rw [h.1]
  have hpd : getA t.lastDiscordIds m.id = getA f.lastDiscordIds m.id := by rw [h.2.1]
  have hl := sim_lifecycleStep now h m (getA f.lastMemberships m.id)
  have hk := sim_linkageStep now hl.2 m (getA f.lastDiscordIds m.id)
  constructor
  · rw [processMember_eventsSplit, processMember_eventsSplit, hps, hpd]
    rw [List.filter_append, ← hl.1,
        noSubFilter (fun e he =>
          isLinkage_not_sub e ((linkageStep_events now _ m _ e he).2)),
        hk.1]
  · simp only [processMember, hps, hpd]
    exact ⟨by rw [hk.2.1], by rw [hk.2.2.1], hk.2.2.2.1, hk.2.2.2.2.1,
           hk.2.2.2.2.2.1, hk.2.2.2.2.2.2⟩

theorem sim_processBatch (now : Nat) (ms : List MembershipData) :
    ∀ {t f : PatreonState}, FirstRunSim t f →
      (processBatch now t ms).1
        = ((processBatch now f ms).1).filter (fun e => !(isSubscribedEvent e)) ∧
      FirstRunSim (processBatch now t ms).2 (processBatch now f ms).2 := by
  induction ms with
  | nil =>
      intro t f h
      exact ⟨by simp [processBatch_nil], h⟩
  | cons m t' ih =>
      intro t f h
      have hm := sim_processMember now h m
      have hr := ih hm.2
      simp only [processBatch_cons]
      constructor
      · rw [List.filter_append, ← hm.1, ← hr.1]
      · exact hr.2

theorem sim_removedStep (now : Nat) (cur : List (Option String)) (k : Option String)
    {t f : PatreonState} (h : FirstRunSim t f) :
    (removedStep now cur ([], t) k).1 = (removedStep now cur ([], f) k).1 ∧
    FirstRunSim (removedStep now cur ([], t) k).2 (removedStep now cur ([], f) k).2 := by
  by_cases hc : k ∈ cur
  · rw [removedStep_skip now cur ([], t) k hc, removedStep_skip now cur ([], f) k hc]
    exact ⟨rfl, h⟩
  · unfold removedStep
    simp only [if_neg hc]
    rw [h.2.1, h.1]
    cases hda : getA f.lastDiscordIds k with
    | none =>
        refine ⟨rfl, ?_, ?_, h.2.2.1, h.2.2.2.1, h.2.2.2.2.1, h.2.2.2.2.2⟩
        · show delA t.lastMemberships k = delA f.lastMemberships k
          rw [h.1]
        · show delA t.lastDiscordIds k = delA f.lastDiscordIds k
          rw [h.2.1]
    | some o =>
        cases o with
        | none =>
            refine ⟨rfl, ?_, ?_, h.2.2.1, h.2.2.2.1, h.2.2.2.2.1, h.2.2.2.2.2⟩
            · show delA t.lastMemberships k = delA f.lastMemberships k
              rw [h.1]
            · show delA t.lastDiscordIds k = delA f.lastDiscordIds k
              rw [h.2.1]
        | some d =>
            by_cases hd : d = ""
            · simp only [hd]
              refine ⟨rfl, ?_, ?_, h.2.2.1, h.2.2.2.1, h.2.2.2.2.1, h.2.2.2.2.2⟩
              · show delA t.lastMemberships k = delA f.lastMemberships k
                rw [h.1]
              · show delA t.lastDiscordIds k = delA f.lastDiscordIds k
                rw [h.2.1]
            · simp only [if_neg hd]
              rw [sim_hasProcessed_disc h]
              by_cases hp : hasProcessedEvent f "disconnected"
                  ⟨k, match getA f.lastMemberships k with
                      | some st => if st = "" then "none" else st
                      | none => "none", some d⟩ = false
              · simp only [if_pos hp]
                have hs := sim_emitAndTrack now h (PEvent.disconnected
                  ⟨k, match getA f.lastMemberships k with
                      | some st => if st = "" then "none" else st
                      | none => "none", some d⟩)
                refine ⟨rfl, ?_, ?_, hs.2.2.1, hs.2.2.2.1, ?_, ?_⟩
                · show delA (emitAndTrack now t (PEvent.disconnected
                      ⟨k, match getA f.lastMemberships k with
                          | some st => if st = "" then "none" else st
                          | none => "none", some d⟩)).lastMemberships k
                    = delA (emitAndTrack now f (PEvent.disconnected
                      ⟨k, match getA f.lastMemberships k with
                          | some st => if st = "" then "none" else st
                          | none => "none", some d⟩)).lastMemberships k
                  rw [emitAndTrack_lastMemberships, emitAndTrack_lastMemberships, h.1]
                · show delA (emitAndTrack now t (PEvent.disconnected
                      ⟨k, match getA f.lastMemberships k with
                          | some st => if st = "" then "none" else st
                          | none => "none", some d⟩)).lastDiscordIds k
                    = delA (emitAndTrack now f (PEvent.disconnected
                      ⟨k, match getA f.lastMemberships k with
                          | some st => if st = "" then "none" else st
                          | none => "none", some d⟩)).lastDiscordIds k
                  rw [emitAndTrack_lastDiscordIds, emitAndTrack_lastDiscordIds, h.2.1]
                · show (emitAndTrack now t (PEvent.disconnected
                      ⟨k, match getA f.lastMemberships k with
                          | some st => if st = "" then "none" else st
                          | none => "none", some d⟩)).isFirstRun = true
                  rw [emitAndTrack_isFirstRun]
                  exact h.2.2.2.2.1
                · show (emitAndTrack now f (PEvent.disconnected
                      ⟨k, match getA f.lastMemberships k with
                          | some st => if st = "" then "none" else st
                          | none => "none", some d⟩)).isFirstRun = false
                  rw [emitAndTrack_isFirstRun]
                  exact h.2.2.2.2.2
              · simp only [if_neg hp]
                refine ⟨trivial, ?_, ?_, h.2.2.1, h.2.2.2.1, h.2.2.2.2.1, h.2.2.2.2.2⟩
                · show delA t.lastMemberships k = delA f.lastMemberships k
                  rw [h.1]
                · show delA t.lastDiscordIds k = delA f.lastDiscordIds k
                  rw [h.2.1]

theorem sim_processRemoved (now : Nat) (cur : List (Option String))
    (ks : List (Option String)) :
    ∀ {t f : PatreonState}, FirstRunSim t f →
      (processRemoved now cur t ks).1 = (processRemoved now cur f ks).1 ∧
      FirstRunSim (processRemoved now cur t ks).2 (processRemoved now cur f ks).2 := by
  induction ks with
  | nil =>
      intro t f h
      exact ⟨rfl, h⟩
  | cons k t' ih =>
      intro t f h
      have hs := sim_removedStep now cur k h
      have hr := ih hs.2
      simp only [processRemoved_cons]
      exact ⟨by rw [hs.1, hr.1], hr.2⟩

/-! ### Emptying of the status map on an empty batch -/

theorem removedStep_not_mem_lastMemberships (now : Nat) (cur : List (Option String))
    (a : List PEvent × PatreonState) (k : Option String) (hc : k ∉ cur) :
    (removedStep now cur a k).2.lastMemberships = delA a.2.lastMemberships k := by
  unfold removedStep
  simp only [if_neg hc]
  cases hda : getA a.2.lastDiscordIds k with
  | none => rfl
  | some o =>
      cases o with
      | none => rfl
      | some d =>
          by_cases hd : d = ""
          · simp only [hd]
            rfl
          · simp only [if_neg hd]
            by_cases hp : hasProcessedEvent a.2 "disconnected"
                ⟨k, match getA a.2.lastMemberships k with
                    | some st => if st = "" then "none" else st
                    | none => "none", some d⟩ = false
            · simp only [if_pos hp, emitStep]
              rw [emitAndTrack_lastMemberships]
            · simp only [if_neg hp]

theorem removedStep_not_mem_lastDiscordIds (now : Nat) (cur : List (Option String))
    (a : List PEvent × PatreonState) (k : Option String) (hc : k ∉ cur) :
    (removedStep now cur a k).2.lastDiscordIds = delA a.2.lastDiscordIds k := by
  unfold removedStep
  simp only [if_neg hc]
  cases hda : getA a.2.lastDiscordIds k with
  | none => rfl
  | some o =>
      cases o with
      | none => rfl
      | some d =>
          by_cases hd : d = ""
          · simp only [hd]
            rfl
          · simp only [if_neg hd]
            by_cases hp : hasProcessedEvent a.2 "disconnected"
                ⟨k, match getA a.2.lastMemberships k with
                    | some st => if st = "" then "none" else st
                    | none => "none", some d⟩ = false
            · simp only [if_pos hp, emitStep]
              rw [emitAndTrack_lastDiscordIds]
            · simp only [if_neg hp]

theorem processRemoved_clear (now : Nat) :
    ∀ (l : List (Option String × String)) (s : PatreonState),
      s.lastMemberships = l →
      (processRemoved now [] s (l.map Prod.fst)).2.lastMemberships = [] := by
  intro l
  induction l with
  | nil =>
      intro s h
      simp only [List.map_nil, processRemoved_nil]
      exact h
  | cons p t ih =>
      intro s h
      rw [List.map_cons]
      simp only [processRemoved_cons]
      apply ih
      rw [removedStep_not_mem_lastMemberships now [] ([], s) p.1 (List.not_mem_nil p.1)]
      show delA s.lastMemberships p.1 = t
      rw [h]
      simp [delA]

/-- Claim C1 (amended): when the Membership Source fetch fails, the tick does
not abort: fetchMemberships reports the error and returns the empty list, and
checkForUpdates reconciles against it, so every previously tracked entity is
swept as removed (status-by-entity ends empty, deduped disconnected events
may fire) and the first-run flag is cleared. -/
theorem claim1_amended_theorem (now : Nat) (s : PatreonState) :
    tickOnFetchError now s = checkForUpdates now s [] ∧
    (tickOnFetchError now s).2.lastMemberships = [] ∧
    (tickOnFetchError now s).2.isFirstRun = false := by
  refine ⟨rfl, ?_, rfl⟩
  show (checkForUpdates now s []).2.lastMemberships = []
  exact processRemoved_clear now s.lastMemberships s rfl

/-- Claim C2 (amended): subscribing or reactivating clears the cancel and
decline records and canceling or declining clears the subscribed-set entry
and the reactivated-at record, so a reconciliation tick preserves the
invariant that an id in the subscribed-set has neither a canceled-at nor a
declined-at record; canceled-at and declined-at, however, are not mutually
exclusive (see the counterexample). -/
theorem claim2_amended_theorem (now : Nat) (s : PatreonState)
    (batch : List MembershipData) (hw : WFState s) (h : SubExcl s) :
    SubExcl (checkForUpdates now s batch).2 ∧ SubExcl initialState :=
  ⟨checkForUpdates_subExcl now s batch hw h,
   fun i hi => absurd hi (List.not_mem_nil i)⟩

/-- Witness for claim C2's amended theorem at a concrete reachable state. -/
theorem claim2_witness :
    SubExcl (checkForUpdates 2 c2tick1 [⟨some "A", "declined_patron", none⟩]).2 ∧
    SubExcl initialState :=
  claim2_amended_theorem 2 c2tick1 [⟨some "A", "declined_patron", none⟩]
    (by decide) (fun i hi => absurd hi (List.not_mem_nil i))

/-- Claim C5: recording a connection deletes any disconnect record for the
entity and vice versa, so after any reconciliation tick from a well-formed
state satisfying the invariant, no entity id appears in both the
connected-linkage and the disconnected-linkage map; the invariant holds in
the initial state. -/
theorem claim5_theorem (now : Nat) (s : PatreonState) (batch : List MembershipData)
    (hw : WFState s) (h : ConnExcl s) :
    ConnExcl (checkForUpdates now s batch).2 ∧ ConnExcl initialState :=
  ⟨checkForUpdates_connExcl now s batch hw h, fun _ => Or.inl rfl⟩

/-- Witness for claim C5's theorem at a concrete state. -/
theorem claim5_witness :
    ConnExcl (checkForUpdates 7 c6prev [⟨some "A", "former_patron", none⟩]).2 ∧
    ConnExcl initialState :=
  claim5_theorem 7 c6prev [⟨some "A", "former_patron", none⟩]
    (by decide) (fun _ => Or.inl rfl)

/-- Claim C10: first-run suppression applies only to the subscribed event:
a tick run with isFirstRun true emits exactly the non-subscribed events that
the same tick run with isFirstRun false would emit (connected, disconnected,
canceled, declined, reactivated and expired all still fire when their guards
hold); isFirstRun is false after every completed tick; and on a cold start
with an empty cache a member with a linkage emits connected on the very
first run. -/
theorem claim10_theorem :
    (∀ (now : Nat) (s : PatreonState) (batch : List MembershipData),
      (checkForUpdates now { s with isFirstRun := true } batch).1
        = ((checkForUpdates now { s with isFirstRun := false } batch).1).filter
            (fun e => !(isSubscribedEvent e))) ∧
    (∀ (now : Nat) (s : PatreonState) (batch : List MembershipData),
      (checkForUpdates now s batch).2.isFirstRun = false) ∧
    (checkForUpdates 0 initialState [⟨some "A", "active_patron", some "D"⟩]).1
      = [PEvent.connected ⟨some "A", "active_patron", some "D"⟩] := by
  refine ⟨?_, ?_, by decide⟩
  · intro now s batch
    have h0 : FirstRunSim { s with isFirstRun := true } { s with isFirstRun := false } :=
      ⟨rfl, rfl, rfl, rfl, rfl, rfl⟩
    have hb := sim_processBatch now batch h0
    rw [checkForUpdates_events_split, checkForUpdates_events_split,
        List.filter_append, ← hb.1,
        noSubFilter (fun e he => isDisc_not_sub e
          ((processRemoved_events_disc now _ _ _ e he).1)),
        hb.2.1, (sim_processRemoved now _ _ hb.2).1]
  · intro now s batch
    exact checkForUpdates_isFirstRun now s batch

/-- Claim C6: in the scenario previous = (A, active, D1), current =
[(A, former, null)] with fresh dedup trackers, the tick emits canceled(A)
then disconnected(A, D1), in that order; in general each member's lifecycle
events precede its linkage events, members are processed in batch order, and
the removed-entity disconnects come last. -/
theorem claim6_theorem :
    (checkForUpdates 7 c6prev [⟨some "A", "former_patron", none⟩]).1
      = [PEvent.canceled ⟨some "A", "former_patron", none⟩,
         PEvent.disconnected ⟨some "A", "former_patron", some "D1"⟩] ∧
    (∀ (now : Nat) (s : PatreonState) (m : MembershipData),
      (processMember now s m).1
        = (lifecycleStep now s m (getA s.lastMemberships m.id)).1
          ++ (linkageStep now (lifecycleStep now s m (getA s.lastMemberships m.id)).2 m
                (getA s.lastDiscordIds m.id)).1) ∧
    (∀ (now : Nat) (s : PatreonState) (m : MembershipData) (ps : Option String),
      ((lifecycleStep now s m ps).1.all isLifecycleEvent) = true) ∧
    (∀ (now : Nat) (s : PatreonState) (m : MembershipData) (pd : Option (Option String)),
      ((linkageStep now s m pd).1.all isLinkageEvent) = true) ∧
    (∀ (now : Nat) (s : PatreonState) (m : MembershipData) (ms : List MembershipData),
      (processBatch now s (m :: ms)).1
        = (processMember now s m).1 ++ (processBatch now (processMember now s m).2 ms).1) ∧
    (∀ (now : Nat) (s : PatreonState) (batch : List MembershipData),
      (checkForUpdates now s batch).1
        = (processBatch now s batch).1
          ++ (processRemoved now (batch.map (fun m => m.id)) (processBatch now s batch).2
                ((processBatch now s batch).2.lastMemberships.map (fun p => p.1))).1 ∧
      ((processRemoved now (batch.map (fun m => m.id)) (processBatch now s batch).2
          ((processBatch now s batch).2.lastMemberships.map (fun p => p.1))).1.all
        isDisconnectedEvent) = true) := by
  refine ⟨by decide, processMember_eventsSplit, ?_, ?_, ?_, ?_⟩
  · intro now s m ps
    rw [List.all_eq_true]
    intro e he
    exact (lifecycleStep_events now s m ps e he).2
  · intro now s m pd
    rw [List.all_eq_true]
    intro e he
    exact (linkageStep_events now s m pd e he).2
  · intro now s m ms
    rw [processBatch_cons]
  · intro now s batch
    refine ⟨rfl, ?_⟩
    rw [List.all_eq_true]
    intro e he
    exact (processRemoved_events_disc now _ _ _ e he).1

/-- Claim C8 (amended): the engine raises no domain errors, but a record
whose id is missing is not skipped: it is diffed like any other record with
the undefined id as its key, entered into the status map, and it can emit
events (a cold, non-first-run state emits subscribed for it). -/
theorem claim8_amended_theorem (now : Nat) (s : PatreonState) (st : String)
    (d : Option String) :
    getA (checkForUpdates now s [⟨none, st, d⟩]).2.lastMemberships none = some st ∧
    (checkForUpdates now { initialState with isFirstRun := false } [⟨none, st, none⟩]).1
      = [PEvent.subscribed ⟨none, st, none⟩] := by
  constructor
  · have hcur : (none : Option String)
        ∈ ([⟨none, st, d⟩] : List MembershipData).map (fun m => m.id) := by simp
    show getA (processRemoved now (([⟨none, st, d⟩] : List MembershipData).map (fun m => m.id))
        (processBatch now s [⟨none, st, d⟩]).2
        ((processBatch now s [⟨none, st, d⟩]).2.lastMemberships.map (fun p => p.1))).2.lastMemberships
        none = some st
    rw [(processRemoved_preserveAt now _ _ hcur _).2.1]
    show getA (processMember now s ⟨none, st, d⟩).2.lastMemberships none = some st
    rw [processMember_lastMemberships]
    exact getA_setA_self _ _ _
  · rfl

/-! ### The subscribed event of a genuinely new member -/

theorem filter_eq_nil_of_false {p : PEvent → Bool} {l : List PEvent}
    (h : ∀ e ∈ l, p e = false) : l.filter p = [] := by
  induction l with
  | nil => rfl
  | cons a t ih =>
      rw [List.filter_cons, h a (List.mem_cons_self a t)]
      exact ih (fun e he => h e (List.mem_cons_of_mem a he))

theorem isSubFor_of_ne {i : Option String} {e : PEvent} (h : eventId e ≠ i) :
    isSubscribedFor i e = false := by
  cases e with
  | subscribed m =>
      simp only [isSubscribedFor]
      exact if_neg h
  | canceled m => rfl
  | declined m => rfl
  | reactivated m => rfl
  | expired m => rfl
  | connected m => rfl
  | disconnected m => rfl

theorem isLinkage_not_subFor {i : Option String} {e : PEvent}
    (h : isLinkageEvent e = true) : isSubscribedFor i e = false := by
  cases e <;> simp [isLinkageEvent, isSubscribedFor] at h ⊢

theorem isDisc_not_subFor {i : Option String} {e : PEvent}
    (h : isDisconnectedEvent e = true) : isSubscribedFor i e = false := by
  cases e <;> simp [isDisconnectedEvent, isSubscribedFor] at h ⊢

theorem emitAndTrack_conn_subscribedMembers (now : Nat) (s : PatreonState)
    (m : MembershipData) :
    (emitAndTrack now s (PEvent.connected m)).subscribedMembers = s.subscribedMembers := by
  cases hm : m.discordId with
  | none => simp [emitAndTrack, hm]
  | some d => by_cases hd : d = "" <;> simp [emitAndTrack, hm, hd]

theorem linkageNoPrev_subscribedMembers (now : Nat) (s : PatreonState) (m : MembershipData) :
    (linkageNoPrev now s m).2.subscribedMembers = s.subscribedMembers := by
  unfold linkageNoPrev
  split
  · exact emitAndTrack_conn_subscribedMembers now s m
  · rfl

theorem linkageWithPrev_subscribedMembers (now : Nat) (s : PatreonState)
    (m : MembershipData) (prevD : String) :
    (linkageWithPrev now s m prevD).2.subscribedMembers = s.subscribedMembers := by
  cases hm : m.discordId with
  | none =>
      simp only [linkageWithPrev, hm]
      split
      · exact emitAndTrack_disc_subscribedMembers now s _
      · rfl
  | some d =>
      simp only [linkageWithPrev, hm]
      by_cases hd : d = ""
      · simp only [if_pos hd]
        split
        · exact emitAndTrack_disc_subscribedMembers now s _
        · rfl
      · simp only [if_neg hd]
        by_cases hpd : prevD = d
        · simp only [if_pos hpd]
        · simp only [if_neg hpd]
          split
          · split
            · exact (emitAndTrack_conn_subscribedMembers now _ m).trans
                (emitAndTrack_disc_subscribedMembers now s _)
            · exact emitAndTrack_disc_subscribedMembers now s _
          · split
            · exact emitAndTrack_conn_subscribedMembers now _ m
            · rfl

theorem linkageStep_subscribedMembers (now : Nat) (s : PatreonState) (m : MembershipData)
    (pd : Option (Option String)) :
    (linkageStep now s m pd).2.subscribedMembers = s.subscribedMembers := by
  cases pd with
  | none => exact linkageNoPrev_subscribedMembers now s m
  | some o =>
      cases o with
      | none => exact linkageNoPrev_subscribedMembers now s m
      | some prevD => exact linkageWithPrev_subscribedMembers now s m prevD

theorem lifecycleNew_emit (now : Nat) (s : PatreonState) (m : MembershipData)
    (hfr : s.isFirstRun = false) (hsub : m.id ∉ s.subscribedMembers) :
    lifecycleNew now s m
      = ([PEvent.subscribed m], emitAndTrack now s (PEvent.subscribed m)) := by
  unfold lifecycleNew
  rw [if_pos ⟨hfr, by rw [hasProcessedEvent_subscribed_eq, if_neg hsub]⟩]
  rfl

theorem processBatch_append (now : Nat) (s : PatreonState) (xs ys : List MembershipData) :
    (processBatch now s (xs ++ ys)).1
      = (processBatch now s xs).1 ++ (processBatch now (processBatch now s xs).2 ys).1 ∧
    (processBatch now s (xs ++ ys)).2 = (processBatch now (processBatch now s xs).2 ys).2 := by
  rcases hxs : processBatch now s xs with ⟨evs1, s1⟩
  have hfold : processBatch now s (xs ++ ys) = List.foldl (stepMember now) (evs1, s1) ys := by
    unfold processBatch at hxs ⊢
    rw [List.foldl_append, hxs]
  rw [hfold, foldl_stepMember_norm]
  exact ⟨rfl, rfl⟩

theorem processMember_new_subscribed (now : Nat) (s : PatreonState) (m : MembershipData)
    (hprev : getA s.lastMemberships m.id = none)
    (hfr : s.isFirstRun = false) (hsub : m.id ∉ s.subscribedMembers) :
    (processMember now s m).1.filter (isSubscribedFor m.id) = [PEvent.subscribed m] ∧
    m.id ∈ (processMember now s m).2.subscribedMembers := by
  constructor
  · rw [processMember_eventsSplit, hprev]
    simp only [lifecycleStep, lifecycleNew_emit now s m hfr hsub, List.filter_append]
    rw [filter_eq_nil_of_false (fun e he =>
      isLinkage_not_subFor ((linkageStep_events now _ m _ e he).2))]
    rw [List.append_nil]
    simp [isSubscribedFor]
  · show m.id ∈ (linkageStep now
        (lifecycleStep now s m (getA s.lastMemberships m.id)).2 m
        (getA s.lastDiscordIds m.id)).2.subscribedMembers
    rw [linkageStep_subscribedMembers, hprev]
    simp only [lifecycleStep, lifecycleNew_emit now s m hfr hsub]
    exact mem_addS.mpr (Or.inr rfl)

/-- Claim C4 (amended): for a batch whose records carry distinct ids, an
entity id absent from the previous status map, present in the batch, and not
already recorded in the subscribed-set fires exactly one subscribed event
during a non-first-run tick (the filtered event list is exactly that event),
and the id is in the subscribed-set afterwards; when the id is still in the
subscribed-set from an earlier cycle, no subscribed event fires (see the
counterexample). -/
theorem claim4_amended_theorem (now : Nat) (s : PatreonState)
    (batch : List MembershipData) (m : MembershipData) (hmem : m ∈ batch)
    (hnodup : (batch.map MembershipData.id).Nodup)
    (hprev : getA s.lastMemberships m.id = none)
    (hfr : s.isFirstRun = false)
    (hsub : m.id ∉ s.subscribedMembers) :
    (checkForUpdates now s batch).1.filter (isSubscribedFor m.id)
      = [PEvent.subscribed m] ∧
    m.id ∈ (checkForUpdates now s batch).2.subscribedMembers := by
  obtain ⟨l1, l2, rfl⟩ := List.append_of_mem hmem
  rw [List.map_append, List.map_cons] at hnodup
  have hnd := List.nodup_append.mp hnodup
  have h1not : m.id ∉ l1.map MembershipData.id :=
    fun hx => hnd.2.2 hx (List.mem_cons_self _ _)
  have h2not : m.id ∉ l2.map MembershipData.id := (List.nodup_cons.mp hnd.2.1).1
  have hl1 := @processBatch_agreeAt now l1 m.id s
    (fun m' hm' he => h1not (he ▸ List.mem_map_of_mem MembershipData.id hm'))
  have hprev1 : getA (processBatch now s l1).2.lastMemberships m.id = none :=
    hl1.2.1.trans hprev
  have hfr1 : (processBatch now s l1).2.isFirstRun = false :=
    (processBatch_isFirstRun now l1 s).trans hfr
  have hsub1 : m.id ∉ (processBatch now s l1).2.subscribedMembers :=
    fun hx => hsub (hl1.1.1.mp hx)
  have hm2 := processMember_new_subscribed now (processBatch now s l1).2 m hprev1 hfr1 hsub1
  have hl2 := @processBatch_agreeAt now l2 m.id
    (processMember now (processBatch now s l1).2 m).2
    (fun m' hm' he => h2not (he ▸ List.mem_map_of_mem MembershipData.id hm'))
  constructor
  · rw [checkForUpdates_events_split]
    rw [(processBatch_append now s l1 (m :: l2)).1]
    rw [show processBatch now (processBatch now s l1).2 (m :: l2)
          = ((processMember now (processBatch now s l1).2 m).1
              ++ (processBatch now (processMember now (processBatch now s l1).2 m).2 l2).1,
             (processBatch now (processMember now (processBatch now s l1).2 m).2 l2).2)
        from processBatch_cons now (processBatch now s l1).2 m l2]
    rw [List.filter_append, List.filter_append, List.filter_append]
    rw [hm2.1]
    rw [filter_eq_nil_of_false (fun e he => @isSubFor_of_ne m.id e
      (fun hq => h1not (hq ▸ processBatch_events now l1 s e he)))]
    rw [filter_eq_nil_of_false (fun e he => @isSubFor_of_ne m.id e
      (fun hq => h2not (hq ▸ processBatch_events now l2 _ e he)))]
    rw [filter_eq_nil_of_false (fun e he => isDisc_not_subFor
      ((processRemoved_events_disc now _ _ _ e he).1))]
    simp
  · show m.id ∈ (processRemoved now ((l1 ++ m :: l2).map (fun m => m.id))
        (processBatch now s (l1 ++ m :: l2)).2
        ((processBatch now s (l1 ++ m :: l2)).2.lastMemberships.map
          (fun p => p.1))).2.subscribedMembers
    rw [(processRemoved_lifecycleComponents now _ _ _).1]
    rw [(processBatch_append now s l1 (m :: l2)).2]
    rw [show processBatch now (processBatch now s l1).2 (m :: l2)
          = ((processMember now (processBatch now s l1).2 m).1
              ++ (processBatch now (processMember now (processBatch now s l1).2 m).2 l2).1,
             (processBatch now (processMember now (processBatch now s l1).2 m).2 l2).2)
        from processBatch_cons now (processBatch now s l1).2 m l2]
    exact hl2.1.1.mpr hm2.2

/-! ### Disconnect-on-removal machinery -/

theorem isDiscFor_of_ne {i : Option String} {e : PEvent} (h : eventId e ≠ i) :
    isDisconnectedFor i e = false := by
  cases e with
  | disconnected m =>
      simp only [isDisconnectedFor]
      exact if_neg h
  | subscribed m => rfl
  | canceled m => rfl
  | declined m => rfl
  | reactivated m => rfl
  | expired m => rfl
  | connected m => rfl

theorem hasProcessedDisc_eval (T : PatreonState) (i : Option String) (stOut : String)
    (d : String) :
    hasProcessedEvent T "disconnected" ⟨i, stOut, some d⟩ = true
      ↔ getA T.disconnectedDiscords i = some d := by
  rw [hasProcessedEvent_disconnected_eq]
  cases hg : getA T.disconnectedDiscords i with
  | none => simp
  | some e =>
      by_cases hde : (some d : Option String) = some e
      · simp only [if_pos hde]
        rw [Option.some_inj] at hde
        simp [hde]
      · simp only [if_neg hde]
        constructor
        · intro hh
          exact absurd hh (by decide)
        · intro hh
          rw [Option.some_inj] at hh
          exact absurd (congrArg some hh.symm) hde

theorem processRemoved_append (now : Nat) (cur : List (Option String)) (s : PatreonState)
    (xs ys : List (Option String)) :
    (processRemoved now cur s (xs ++ ys)).1
      = (processRemoved now cur s xs).1
        ++ (processRemoved now cur (processRemoved now cur s xs).2 ys).1 ∧
    (processRemoved now cur s (xs ++ ys)).2
      = (processRemoved now cur (processRemoved now cur s xs).2 ys).2 := by
  rcases hxs : processRemoved now cur s xs with ⟨evs1, s1⟩
  have hfold : processRemoved now cur s (xs ++ ys)
      = List.foldl (removedStep now cur) (evs1, s1) ys := by
    unfold processRemoved at hxs ⊢
    rw [List.foldl_append, hxs]
  rw [hfold, foldl_removedStep_norm]
  exact ⟨rfl, rfl⟩

theorem removedStep_emit_case (now : Nat) (cur : List (Option String)) (T : PatreonState)
    (i : Option String) (st : String) (d : String)
    (hcur : i ∉ cur)
    (hstT : getA T.lastMemberships i = some st)
    (hdT : getA T.lastDiscordIds i = some (some d))
    (hdne : d ≠ "")
    (hproc : hasProcessedEvent T "disconnected"
        ⟨i, if st = "" then "none" else st, some d⟩ = false) :
    removedStep now cur ([], T) i
      = ([PEvent.disconnected ⟨i, if st = "" then "none" else st, some d⟩],
         { emitAndTrack now T (PEvent.disconnected
               ⟨i, if st = "" then "none" else st, some d⟩) with
             lastMemberships := delA (emitAndTrack now T (PEvent.disconnected
               ⟨i, if st = "" then "none" else st, some d⟩)).lastMemberships i,
             lastDiscordIds := delA (emitAndTrack now T (PEvent.disconnected
               ⟨i, if st = "" then "none" else st, some d⟩)).lastDiscordIds i }) := by
  unfold removedStep
  simp only [if_neg hcur, hdT, hstT, if_neg hdne, hproc, emitStep, List.nil_append]
  simp

theorem removedStep_suppressed_case (now : Nat) (cur : List (Option String))
    (T : PatreonState) (i : Option String) (st : String) (d : String)
    (hcur : i ∉ cur)
    (hstT : getA T.lastMemberships i = some st)
    (hdT : getA T.lastDiscordIds i = some (some d))
    (hdne : d ≠ "")
    (hproc : hasProcessedEvent T "disconnected"
        ⟨i, if st = "" then "none" else st, some d⟩ = true) :
    removedStep now cur ([], T) i
      = ([], { T with lastMemberships := delA T.lastMemberships i,
                      lastDiscordIds := delA T.lastDiscordIds i }) := by
  unfold removedStep
  simp only [if_neg hcur, hdT, hstT, if_neg hdne, hproc]
  simp

/-- Claim C7: an entity present in the previous status map with a truthy
last-known linkage and absent from the current batch receives exactly one
disconnected event carrying that linkage id, unless the identity dedup
tracker already records that very disconnect, in which case none fires; in
both cases the entity is deleted from status-by-entity and
linkage-by-entity. -/
theorem claim7_theorem (now : Nat) (s : PatreonState) (batch : List MembershipData)
    (i : Option String) (st : String) (d : String)
    (hw : WFState s)
    (hst : getA s.lastMemberships i = some st)
    (hd : getA s.lastDiscordIds i = some (some d))
    (hdne : d ≠ "")
    (habs : i ∉ batch.map MembershipData.id) :
    (getA s.disconnectedDiscords i ≠ some d →
      (checkForUpdates now s batch).1.filter (isDisconnectedFor i)
        = [PEvent.disconnected ⟨i, if st = "" then "none" else st, some d⟩]) ∧
    (getA s.disconnectedDiscords i = some d →
      (checkForUpdates now s batch).1.filter (isDisconnectedFor i) = []) ∧
    getA (checkForUpdates now s batch).2.lastMemberships i = none ∧
    getA (checkForUpdates now s batch).2.lastDiscordIds i = none := by
  have habs' : i ∉ batch.map (fun m => m.id) := habs
  have hb := @processBatch_agreeAt now batch i s
    (fun m' hm' he => habs (he ▸ List.mem_map_of_mem MembershipData.id hm'))
  have hwf1 := processBatch_WF now batch s hw
  have hst1 : getA (processBatch now s batch).2.lastMemberships i = some st :=
    hb.2.1.trans hst
  have hd1 : getA (processBatch now s batch).2.lastDiscordIds i = some (some d) :=
    hb.2.2.trans hd
  have hdisc1 : getA (processBatch now s batch).2.disconnectedDiscords i
      = getA s.disconnectedDiscords i := hb.1.2.2.2.2.2
  have hks : i ∈ (processBatch now s batch).2.lastMemberships.map Prod.fst :=
    mem_keys_of_getA hst1
  obtain ⟨k1, k2, hsplit⟩ := List.append_of_mem hks
  have hnd : ((processBatch now s batch).2.lastMemberships.map Prod.fst).Nodup := hwf1.1
  rw [hsplit] at hnd
  have hnd' := List.nodup_append.mp hnd
  have hk1 : ∀ k ∈ k1, k ≠ i := fun k hk he => hnd'.2.2 (he ▸ hk) (List.mem_cons_self _ _)
  have hk2 : ∀ k ∈ k2, k ≠ i := fun k hk he => (List.nodup_cons.mp hnd'.2.1).1 (he ▸ hk)
  have hr1 := @processRemoved_agreeKeys now (batch.map (fun m => m.id)) k1 i
    (processBatch now s batch).2 hk1
  have hwfT := processRemoved_WF now (batch.map (fun m => m.id)) k1
    (processBatch now s batch).2 hwf1
  have hstT : getA (processRemoved now (batch.map (fun m => m.id))
      (processBatch now s batch).2 k1).2.lastMemberships i = some st := hr1.2.1.trans hst1
  have hdT : getA (processRemoved now (batch.map (fun m => m.id))
      (processBatch now s batch).2 k1).2.lastDiscordIds i = some (some d) :=
    hr1.2.2.trans hd1
  have hdiscT : getA (processRemoved now (batch.map (fun m => m.id))
      (processBatch now s batch).2 k1).2.disconnectedDiscords i
      = getA s.disconnectedDiscords i := hr1.1.2.2.2.2.2.trans hdisc1
  have hprocIff := hasProcessedDisc_eval (processRemoved now (batch.map (fun m => m.id))
      (processBatch now s batch).2 k1).2 i (if st = "" then "none" else st) d
  have hev : (checkForUpdates now s batch).1.filter (isDisconnectedFor i)
      = (removedStep now (batch.map (fun m => m.id)) ([],
          (processRemoved now (batch.map (fun m => m.id))
            (processBatch now s batch).2 k1).2) i).1.filter (isDisconnectedFor i) := by
    rw [checkForUpdates_events_split, List.filter_append]
    rw [filter_eq_nil_of_false (fun e he => @isDiscFor_of_ne i e
      (fun hq => habs (hq ▸ processBatch_events now batch s e he)))]
    rw [List.nil_append]
    rw [show (processBatch now s batch).2.lastMemberships.map (fun p => p.1)
        = k1 ++ i :: k2 from hsplit]
    rw [(processRemoved_append now (batch.map (fun m => m.id))
      (processBatch now s batch).2 k1 (i :: k2)).1]
    rw [List.filter_append]
    rw [filter_eq_nil_of_false (fun e he => @isDiscFor_of_ne i e
      (fun hq => hk1 (eventId e) ((processRemoved_events_disc now _ _ _ e he).2) hq))]
    rw [List.nil_append]
    simp only [processRemoved_cons]
    rw [List.filter_append]
    rw [filter_eq_nil_of_false (fun e he => @isDiscFor_of_ne i e
      (fun hq => hk2 (eventId e) ((processRemoved_events_disc now _ _ _ e he).2) hq))]
    rw [List.append_nil]
  refine ⟨?_, ?_, ?_, ?_⟩
  · intro hne
    have hproc : hasProcessedEvent (processRemoved now (batch.map (fun m => m.id))
        (processBatch now s batch).2 k1).2 "disconnected"
        ⟨i, if st = "" then "none" else st, some d⟩ = false := by
      cases hx : hasProcessedEvent (processRemoved now (batch.map (fun m => m.id))
          (processBatch now s batch).2 k1).2 "disconnected"
          ⟨i, if st = "" then "none" else st, some d⟩ with
      | false => rfl
      | true => exact absurd (hdiscT ▸ hprocIff.mp hx) hne
    rw [hev, removedStep_emit_case now _ _ i st d habs' hstT hdT hdne hproc]
    simp [isDisconnectedFor]
  · intro heq
    have hproc : hasProcessedEvent (processRemoved now (batch.map (fun m => m.id))
        (processBatch now s batch).2 k1).2 "disconnected"
        ⟨i, if st = "" then "none" else st, some d⟩ = true :=
      hprocIff.mpr (by rw [hdiscT]; exact heq)
    rw [hev, removedStep_suppressed_case now _ _ i st d habs' hstT hdT hdne hproc]
    rfl
  · show getA (processRemoved now (batch.map (fun m => m.id)) (processBatch now s batch).2
        ((processBatch now s batch).2.lastMemberships.map
          (fun p => p.1))).2.lastMemberships i = none
    rw [show (processBatch now s batch).2.lastMemberships.map (fun p => p.1)
        = k1 ++ i :: k2 from hsplit]
    rw [(processRemoved_append now (batch.map (fun m => m.id))
      (processBatch now s batch).2 k1 (i :: k2)).2]
    simp only [processRemoved_cons]
    rw [(@processRemoved_agreeKeys now (batch.map (fun m => m.id)) k2 i
      (removedStep now (batch.map (fun m => m.id)) ([],
        (processRemoved now (batch.map (fun m => m.id))
          (processBatch now s batch).2 k1).2) i).2 hk2).2.1]
    rw [removedStep_not_mem_lastMemberships now _ ([],
      (processRemoved now (batch.map (fun m => m.id))
        (processBatch now s batch).2 k1).2) i habs']
    show getA (delA (processRemoved now (batch.map (fun m => m.id))
      (processBatch now s batch).2 k1).2.lastMemberships i) i = none
    exact getA_delA_self hwfT.1
  · show getA (processRemoved now (batch.map (fun m => m.id)) (processBatch now s batch).2
        ((processBatch now s batch).2.lastMemberships.map
          (fun p => p.1))).2.lastDiscordIds i = none
    rw [show (processBatch now s batch).2.lastMemberships.map (fun p => p.1)
        = k1 ++ i :: k2 from hsplit]
    rw [(processRemoved_append now (batch.map (fun m => m.id))
      (processBatch now s batch).2 k1 (i :: k2)).2]
    simp only [processRemoved_cons]
    rw [(@processRemoved_agreeKeys now (batch.map (fun m => m.id)) k2 i
      (removedStep now (batch.map (fun m => m.id)) ([],
        (processRemoved now (batch.map (fun m => m.id))
          (processBatch now s batch).2 k1).2) i).2 hk2).2.2]
    rw [removedStep_not_mem_lastDiscordIds now _ ([],
      (processRemoved now (batch.map (fun m => m.id))
        (processBatch now s batch).2 k1).2) i habs']
    show getA (delA (processRemoved now (batch.map (fun m => m.id))
      (processBatch now s batch).2 k1).2.lastDiscordIds i) i = none
    exact getA_delA_self hwfT.2.1

/-! ### Idempotence of a repeated tick -/

theorem set_isFirstRun_self (S : PatreonState) (h : S.isFirstRun = false) :
    { S with isFirstRun := false } = S := by
  obtain ⟨a1, a2, a3, a4, a5, a6, a7, a8, a9⟩ := S
  rw [show a9 = false from h]

theorem processBatch_values (now : Nat) (ms : List MembershipData) :
    ∀ (s : PatreonState), (ms.map MembershipData.id).Nodup →
      ∀ m ∈ ms, getA (processBatch now s ms).2.lastMemberships m.id = some m.status ∧
        getA (processBatch now s ms).2.lastDiscordIds m.id = some m.discordId := by
  induction ms with
  | nil =>
      intro s _ m hm
      exact absurd hm (List.not_mem_nil m)
  | cons x t ih =>
      intro s hnd m hm
      rw [List.map_cons, List.nodup_cons] at hnd
      simp only [processBatch_cons]
      rcases List.mem_cons.mp hm with rfl | hm'
      · have hx : ∀ m' ∈ t, m'.id ≠ m.id :=
          fun m' hm' he => hnd.1 (he ▸ List.mem_map_of_mem MembershipData.id hm')
        have hagree := @processBatch_agreeAt now t m.id (processMember now s m).2 hx
        constructor
        · rw [hagree.2.1, processMember_lastMemberships]
          exact getA_setA_self _ _ _
        · rw [hagree.2.2, processMember_lastDiscordIds]
          exact getA_setA_self _ _ _
      · exact ih (processMember now s x).2 hnd.2 m hm'

theorem processMember_noop (now : Nat) (S : PatreonState) (m : MembershipData)
    (h1 : getA S.lastMemberships m.id = some m.status)
    (hst : m.status ≠ "")
    (h2 : getA S.lastDiscordIds m.id = some m.discordId)
    (hdd : m.discordId ≠ some "") :
    processMember now S m = ([], S) := by
  have ha : lifecycleStep now S m (some m.status) = ([], S) := by
    simp [lifecycleStep, hst]
  have hb : linkageStep now S m (some m.discordId) = ([], S) := by
    cases hmd : m.discordId with
    | none =>
        show linkageNoPrev now S m = ([], S)
        unfold linkageNoPrev
        rw [if_neg]
        intro hc
        rw [hmd] at hc
        exact absurd hc.1 (by decide)
    | some dd =>
        have hdd' : dd ≠ "" := fun hh => hdd (by rw [hmd, hh])
        show linkageWithPrev now S m dd = ([], S)
        simp [linkageWithPrev, hmd, hdd']
  simp only [processMember, h1, h2, ha, hb, setA_self h1, setA_self h2, List.nil_append]

theorem processBatch_noop (now : Nat) (ms : List MembershipData) :
    ∀ (S : PatreonState),
      (∀ m ∈ ms, getA S.lastMemberships m.id = some m.status ∧ m.status ≠ "" ∧
        getA S.lastDiscordIds m.id = some m.discordId ∧ m.discordId ≠ some "") →
      processBatch now S ms = ([], S) := by
  induction ms with
  | nil => intro S _; rfl
  | cons x t ih =>
      intro S h
      have hx := h x (List.mem_cons_self x t)
      simp only [processBatch_cons, processMember_noop now S x hx.1 hx.2.1 hx.2.2.1 hx.2.2.2,
                 ih S (fun m hm => h m (List.mem_cons_of_mem x hm)), List.nil_append]

theorem processRemoved_noop (now : Nat) (cur : List (Option String))
    (ks : List (Option String)) :
    ∀ (S : PatreonState), (∀ k ∈ ks, k ∈ cur) → processRemoved now cur S ks = ([], S) := by
  induction ks with
  | nil => intro S _; rfl
  | cons k t ih =>
      intro S h
      simp only [processRemoved_cons, removedStep_skip now cur ([], S) k (h k (List.mem_cons_self k t)),
                 ih S (fun k' hk' => h k' (List.mem_cons_of_mem k hk')), List.nil_append]

theorem processRemoved_keys_subset (now : Nat) (cur : List (Option String))
    (ks : List (Option String)) :
    ∀ (S : PatreonState), WFState S →
      ∀ x, x ∈ (processRemoved now cur S ks).2.lastMemberships.map Prod.fst →
        x ∈ cur ∨ (x ∈ S.lastMemberships.map Prod.fst ∧ x ∉ ks) := by
  induction ks with
  | nil =>
      intro S _ x hx
      exact Or.inr ⟨hx, List.not_mem_nil x⟩
  | cons k t ih =>
      intro S hwf x hx
      simp only [processRemoved_cons] at hx
      have hstep_wf : WFState (removedStep now cur ([], S) k).2 :=
        removedStep_WF now cur ([], S) k hwf
      rcases ih (removedStep now cur ([], S) k).2 hstep_wf x hx with hc | ⟨hmem, hnot⟩
      · exact Or.inl hc
      · by_cases hxk : x = k
        · subst hxk
          by_cases hk : x ∈ cur
          · exact Or.inl hk
          · rw [removedStep_not_mem_lastMemberships now cur ([], S) x hk] at hmem
            exact absurd rfl ((mem_keys_delA hwf.1).mp hmem).2
        · have hmem' : x ∈ S.lastMemberships.map Prod.fst := by
            by_cases hk : k ∈ cur
            · rw [removedStep_skip now cur ([], S) k hk] at hmem
              exact hmem
            · rw [removedStep_not_mem_lastMemberships now cur ([], S) k hk] at hmem
              exact keys_delA_subset hmem
          refine Or.inr ⟨hmem', ?_⟩
          intro hxkt
          rcases List.mem_cons.mp hxkt with hh | hxt
          · exact hxk hh
          · exact hnot hxt

theorem checkForUpdates_keys_subset (now : Nat) (s : PatreonState)
    (batch : List MembershipData) (hw : WFState s) :
    ∀ x, x ∈ (checkForUpdates now s batch).2.lastMemberships.map Prod.fst →
      x ∈ batch.map (fun m => m.id) := by
  intro x hx
  have hwf1 := processBatch_WF now batch s hw
  have hx' : x ∈ (processRemoved now (batch.map fun m => m.id)
      (processBatch now s batch).2
      ((processBatch now s batch).2.lastMemberships.map
        (fun p => p.1))).2.lastMemberships.map Prod.fst := hx
  have hh := processRemoved_keys_subset now (batch.map fun m => m.id)
    ((processBatch now s batch).2.lastMemberships.map (fun p => p.1))
    (processBatch now s batch).2 hwf1 x hx'
  rcases hh with hc | ⟨hmem, hnot⟩
  · exact hc
  · exact absurd hmem hnot

theorem checkForUpdates_noop (now' : Nat) (S : PatreonState) (batch : List MembershipData)
    (hvals : ∀ m ∈ batch, getA S.lastMemberships m.id = some m.status ∧ m.status ≠ "" ∧
        getA S.lastDiscordIds m.id = some m.discordId ∧ m.discordId ≠ some "")
    (hkeys : ∀ k ∈ S.lastMemberships.map Prod.fst, k ∈ batch.map (fun m => m.id))
    (hfr : S.isFirstRun = false) :
    checkForUpdates now' S batch = ([], S) := by
  have hbn := processBatch_noop now' batch S hvals
  have hrn := processRemoved_noop now' (batch.map fun m => m.id)
      (S.lastMemberships.map (fun p => p.1)) S hkeys
  show ((processBatch now' S batch).1
        ++ (processRemoved now' (batch.map fun m => m.id) (processBatch now' S batch).2
              ((processBatch now' S batch).2.lastMemberships.map (fun p => p.1))).1,
       { (processRemoved now' (batch.map fun m => m.id) (processBatch now' S batch).2
            ((processBatch now' S batch).2.lastMemberships.map (fun p => p.1))).2
         with isFirstRun := false }) = ([], S)
  rw [hbn]
  show (([] : List PEvent)
        ++ (processRemoved now' (batch.map fun m => m.id) S
              (S.lastMemberships.map (fun p => p.1))).1,
       { (processRemoved now' (batch.map fun m => m.id) S
            (S.lastMemberships.map (fun p => p.1))).2 with isFirstRun := false }) = ([], S)
  rw [hrn]
  show (([] : List PEvent) ++ [], { S with isFirstRun := false }) = ([], S)
  rw [set_isFirstRun_self S hfr]
  simp

/-- Claim C3 (amended): for a well-formed persisted state and a batch whose
records carry distinct ids, non-empty statuses and no empty-string linkage
ids (the only shapes fetchMemberships produces), running the reconciliation
a second time on the updated state with the same batch emits zero events and
returns the state unchanged. -/
theorem claim3_amended_theorem (now now' : Nat) (s : PatreonState)
    (batch : List MembershipData)
    (hw : WFState s) (hnd : (batch.map MembershipData.id).Nodup)
    (hst : ∀ m ∈ batch, m.status ≠ "") (hdd : ∀ m ∈ batch, m.discordId ≠ some "") :
    checkForUpdates now' (checkForUpdates now s batch).2 batch
      = ([], (checkForUpdates now s batch).2) := by
  apply checkForUpdates_noop
  · intro m hm
    refine ⟨?_, hst m hm, ?_, hdd m hm⟩
    · have hb := (processBatch_values now batch s hnd m hm).1
      have hcur : m.id ∈ batch.map (fun m => m.id) :=
        List.mem_map_of_mem (fun m => m.id) hm
      have hp := @processRemoved_preserveAt now (batch.map fun m => m.id)
        ((processBatch now s batch).2.lastMemberships.map (fun p => p.1)) m.id hcur
        (processBatch now s batch).2
      show getA (processRemoved now (batch.map fun m => m.id) (processBatch now s batch).2
          ((processBatch now s batch).2.lastMemberships.map
            (fun p => p.1))).2.lastMemberships m.id = some m.status
      rw [hp.2.1]
      exact hb
    · have hb := (processBatch_values now batch s hnd m hm).2
      have hcur : m.id ∈ batch.map (fun m => m.id) :=
        List.mem_map_of_mem (fun m => m.id) hm
      have hp := @processRemoved_preserveAt now (batch.map fun m => m.id)
        ((processBatch now s batch).2.lastMemberships.map (fun p => p.1)) m.id hcur
        (processBatch now s batch).2
      show getA (processRemoved now (batch.map fun m => m.id) (processBatch now s batch).2
          ((processBatch now s batch).2.lastMemberships.map
            (fun p => p.1))).2.lastDiscordIds m.id = some m.discordId
      rw [hp.2.2]
      exact hb
  · intro k hk
    exact checkForUpdates_keys_subset now s batch hw k hk
  · exact checkForUpdates_isFirstRun now s batch

/-- Witness for claim C3's amended theorem at a concrete run. -/
theorem claim3_witness :
    checkForUpdates 2 (checkForUpdates 1 initialState
        [⟨some "A", "active_patron", some "D"⟩]).2
        [⟨some "A", "active_patron", some "D"⟩]
      = ([], (checkForUpdates 1 initialState
          [⟨some "A", "active_patron", some "D"⟩]).2) :=
  claim3_amended_theorem 1 2 initialState [⟨some "A", "active_patron", some "D"⟩]
    (by decide) (by decide) (by decide) (by decide)

/-- Witness for claim C4's amended theorem at a concrete run. -/
theorem claim4_witness :
    (checkForUpdates 5 { initialState with isFirstRun := false }
        [⟨some "A", "active_patron", none⟩]).1.filter (isSubscribedFor (some "A"))
      = [PEvent.subscribed ⟨some "A", "active_patron", none⟩] ∧
    some "A" ∈ (checkForUpdates 5 { initialState with isFirstRun := false }
        [⟨some "A", "active_patron", none⟩]).2.subscribedMembers :=
  claim4_amended_theorem 5 { initialState with isFirstRun := false }
    [⟨some "A", "active_patron", none⟩] ⟨some "A", "active_patron", none⟩
    (by decide) (by decide) (by decide) (by decide) (by decide)

/-- Witness for claim C7's theorem at a concrete run: member A with linkage
D1 disappears from the batch and the tick emits exactly one disconnected
event carrying D1 and deletes A from both maps. -/
theorem claim7_witness :
    (checkForUpdates 3 c6prev []).1.filter (isDisconnectedFor (some "A"))
      = [PEvent.disconnected ⟨some "A", "active_patron", some "D1"⟩] ∧
    getA (checkForUpdates 3 c6prev []).2.lastMemberships (some "A") = none ∧
    getA (checkForUpdates 3 c6prev []).2.lastDiscordIds (some "A") = none := by
  have h := claim7_theorem 3 c6prev [] (some "A") "active_patron" "D1"
    (by decide) (by decide) (by decide) (by decide) (by decide)
  exact ⟨h.1 (by decide), h.2.2.1, h.2.2.2⟩

end PatreonConnect
